import Mathlib

/-!
# Cloak: the command-line and interactive front end (`src/main.cpp`)

A shallow embedding of `main.cpp`: the case-insensitive comparison `_strcmpi`,
the option scanner and dispatcher `processParams`, the interactive dispatcher
`processCommand`, and the helpers `getBitsPerByte`, `getPassword`, `getpwd`
and `getKeyStream`.  Console input is a list of characters, console output and
the calls made on the engine are recorded as a trace of events.
-/

namespace Cloak

set_option autoImplicit false

/-! ## C strings and the C library -/

/-- A C string, given by the characters stored before its terminating NUL. -/
abbrev CString := List Char

/-- The C library `toupper` in the "C" locale: `a`..`z` go to `A`..`Z`, every
other character is returned unchanged. -/
def toupper (c : Char) : Char := c.toUpper

/-- The C library `isspace` in the "C" locale. -/
def isspace (c : Char) : Bool :=
  c = ' ' || c = '\t' || c = '\n' || c = '\x0b' || c = '\x0c' || c = '\r'

/-- The value of the decimal digits at the front of `s`, accumulated onto `acc`
(the digit loop of `atoi`); it stops at the first character that is no digit. -/
def atoiDigits : CString → Nat → Nat
  | [], acc => acc
  | c :: s, acc => if c.isDigit then atoiDigits s (acc * 10 + (c.toNat - 48)) else acc

/-- The C library `atoi`: leading white space is skipped, an optional sign is
read, then decimal digits up to the first other character.  The result is the
mathematical value (a value outside the range of `int` is undefined behaviour
in C and is not modelled). -/
def atoi (s : CString) : Int :=
  match s.dropWhile isspace with
  | '-' :: r => - (atoiDigits r 0 : Int)
  | '+' :: r => (atoiDigits r 0 : Int)
  | r => (atoiDigits r 0 : Int)

/-- Conversion of an `int` to an unsigned integer type of `w` bits. -/
def castUnsigned (w : Nat) (n : Int) : Nat := (n % (2 ^ w : Int)).toNat

/-! ## `_strcmpi` (main.cpp 48-66) -/

/-- The loop of `_strcmpi`: the two strings are walked in step and the first
position whose upper-cased characters differ gives -1. -/
def strcmpiLoop : CString → CString → Int
  | c :: s, d :: t => if toupper c ≠ toupper d then -1 else strcmpiLoop s t
  | _, _ => 0

/-- The function `_strcmpi`: -1 when the lengths differ, otherwise the loop
over the `strlen (pszStr)` positions. -/
def _strcmpi (pszStr pszCompare : CString) : Int :=
  if pszStr.length ≠ pszCompare.length then -1
  else strcmpiLoop pszStr pszCompare

/-! ## Types and constants that main.cpp takes from its headers -/

/-- The integer widths and buffer lengths that main.cpp uses and that are
declared in headers outside the source file: the widths of `byte` and `word`,
`FILENAME_BUFFER_LENGTH`, `PASSWORD_BUFFER_LENGTH`, and the density a freshly
constructed engine reports. -/
structure Config where
  byteBits : Nat
  wordBits : Nat
  FILENAME_BUFFER_LENGTH : Nat
  PASSWORD_BUFFER_LENGTH : Nat
  freshBitsPerByte : Nat
  deriving Repr

/-- The customary values: `byte` is an 8-bit and `word` a 16-bit unsigned
integer, file names have 512 and passwords 128 bytes of buffer, and a fresh
engine reports a density of 0. -/
def refConfig : Config :=
  { byteBits := 8, wordBits := 16, FILENAME_BUFFER_LENGTH := 512,
    PASSWORD_BUFFER_LENGTH := 128, freshBitsPerByte := 0 }

/-- The error codes of the exceptions main.cpp throws itself; `engine` stands
for any exception thrown inside the engine or the file layer. -/
inductive ErrCode
  | ERR_VALIDATION
  | ERR_MALLOC
  | ERR_INVALID_PWD_LEN
  | engine
  deriving DecidableEq, Repr

/-- The values of `mode` in processParams. -/
inductive Mode
  | MODE_INFO_ONLY
  | MODE_ADD
  | MODE_EXTRACT
  | MODE_COPY
  deriving DecidableEq, Repr

/-- The values of `keyMode` in processParams. -/
inductive KeyMode
  | KEY_PASSWD
  | KEY_STREAM
  deriving DecidableEq, Repr

/-- The key material of a merge or extract call: the two-argument overload
takes a password, the three-argument overload a keystream (recorded by the
name of the file it was read from).  `none` is a buffer that was never
written. -/
inductive KeyMaterial
  | password (szPassword : Option CString)
  | keystream (szKeyFilename : Option CString)
  deriving DecidableEq, Repr

/-- What the program does to the outside: console output and the calls it
makes on the engine.  A merge or extract call records the density the engine
holds when it is called. -/
inductive Event
  | print (text : String)
  | printException (code : ErrCode)
  | printUsage
  | printHelp
  | printHeaderInfo
  | newCloak
  | deleteCloak
  | setBitsPerByte (n : Nat)
  | loadSourceImage (name : Option CString)
  | loadSourceDataFile (name : Option CString)
  | merge (bitsPerByte : Nat) (out : Option CString) (key : KeyMaterial)
  | extract (bitsPerByte : Nat) (out : Option CString) (key : KeyMaterial)
  | copy (out : Option CString)
  | getKeyStream (name : Option CString)
  deriving DecidableEq, Repr

/-- The state the front end runs in: the unread console input, the fail bit of
`cin`, the outcomes of the coming engine and file operations (`true` returns,
`false` throws; an exhausted list means they return), the density stored in the
engine, and the trace of events so far. -/
structure World where
  stdin : List Char
  cinFail : Bool
  calls : List Bool
  bitsPerByte : Nat
  trace : List Event
  deriving DecidableEq, Repr

/-- Append an event to the trace. -/
def World.emit (w : World) (e : Event) : World :=
  { w with trace := w.trace ++ [e] }

/-- An operation of the engine or the file layer that may throw: the event is
recorded and the next outcome is consumed. -/
def World.call (w : World) (e : Event) : Bool × World :=
  match w.calls with
  | [] => (true, w.emit e)
  | ok :: rest => (ok, { w.emit e with calls := rest })

/-- The engine method `Cloak::setBitsPerByte`, which stores the density. -/
def setBitsPerByte (n : Nat) (w : World) : World :=
  { w.emit (.setBitsPerByte n) with bitsPerByte := n }

/-! ## Console input -/

/-- The extraction loop of `cin.getline (buf, count)` with `room` characters
of the buffer still free: it ends at the end of input (fail bit when nothing
was extracted), at a newline (extracted, not stored), or when the buffer is
full and another character is waiting (fail bit).  The result is the stored
characters, the unread input and the fail bit. -/
def getlineLoop : Nat → List Char → List Char → List Char × List Char × Bool
  | _, [], acc => (acc, [], acc.isEmpty)
  | room, c :: rest, acc =>
    if c = '\n' then (acc, rest, false)
    else match room with
      | 0 => (acc, c :: rest, true)
      | room + 1 => getlineLoop room rest (acc ++ [c])

/-- The call `cin.getline (buf, count)`: on a failed stream nothing is read
and the buffer holds the empty string; otherwise the buffer holds the line,
read as a C string (up to the first NUL). -/
def cinGetline (count : Nat) (w : World) : CString × World :=
  if w.cinFail then ([], w)
  else
    let r := getlineLoop (count - 1) w.stdin []
    (r.1.takeWhile (fun c => c ≠ '\x00'), { w with stdin := r.2.1, cinFail := r.2.2 })

/-! ## `getpwd` and `getPassword` (main.cpp 487-581) -/

/-- The loop of `getpwd` at index `i` with the characters `acc` stored so far.
At the end of input `getchar` returns EOF for ever, which is stored until the
buffer index reaches `maxLen` and the exception is thrown.  The result is the
password (`none` when ERR_INVALID_PWD_LEN is thrown), the unread input and
what was echoed. -/
def getpwdLoop (maxLen : Nat) : List Char → Nat → List Char →
    Option CString × List Char × List Event
  | [], i, _ => (none, [], List.replicate (maxLen - i) (.print "*"))
  | c :: rest, i, acc =>
    if c ≠ '\n' ∧ c ≠ '\r' then
      if i < maxLen then
        if c = '\x00' then (some acc, rest, [.print "*"])
        else
          let r := getpwdLoop maxLen rest (i + 1) (acc ++ [c])
          (r.1, r.2.1, .print "*" :: r.2.2)
      else (none, rest, [])
    else (some acc, rest, [.print "\n"])

/-- The function `getpwd`: reads a password of at most `maxLen` characters
without echo, or throws ERR_INVALID_PWD_LEN. -/
def getpwd (maxLen : Nat) (w : World) : Except ErrCode CString × World :=
  let r := getpwdLoop maxLen w.stdin 0 []
  let w1 := { w with stdin := r.2.1, trace := w.trace ++ r.2.2 }
  match r.1 with
  | some pwd => (.ok pwd, w1)
  | none => (.error .ERR_INVALID_PWD_LEN, w1)

/-- The function `getPassword`: the password is entered twice; `some pwd` is
the return value 0 with the password copied out, `none` the return value -1
(the two entries differ).  The two allocations are taken to succeed and the
password to fit the buffer `strcpy_s` copies it to. -/
def getPassword (maxLen : Nat) (w : World) : Except ErrCode (Option CString) × World :=
  match getpwd maxLen (w.emit (.print "Enter password: ")) with
  | (.error e, w1) => (.error e, w1)
  | (.ok pszPassword1, w1) =>
    match getpwd maxLen (w1.emit (.print "Confirm password: ")) with
    | (.error e, w2) => (.error e, w2)
    | (.ok pszPassword2, w2) =>
      if pszPassword1 ≠ pszPassword2 then
        (.ok none, w2.emit (.print "\nThe passwords do not match!"))
      else (.ok (some pszPassword1), w2)

/-! ## `getKeyStream` and `getBitsPerByte` (main.cpp 454-485) -/

/-- The function `getKeyStream`: the key file is read, which may throw. -/
def getKeyStream (pszKeyFilename : Option CString) (w : World) : Bool × World :=
  w.call (.getKeyStream pszKeyFilename)

/-- The function `getBitsPerByte`: a line of at most 15 characters is read and
converted with `(word) atoi`; 1, 2 and 4 are stored in the engine, everything
else throws ERR_VALIDATION. -/
def getBitsPerByte (cfg : Config) (w : World) : Except ErrCode Unit × World :=
  let r := cinGetline 16 (w.emit (.print "Enter bits per byte (1, 2, or 4): "))
  let bitsPerByte := castUnsigned cfg.wordBits (atoi r.1)
  if bitsPerByte = 1 ∨ bitsPerByte = 2 ∨ bitsPerByte = 4 then
    (.ok (), setBitsPerByte (castUnsigned cfg.wordBits (atoi r.1)) r.2)
  else (.error .ERR_VALIDATION, r.2)

/-! ## `processCommand` and the command loop of `main` (main.cpp 69-89, 298-452) -/

/-- Lines 374-384 (and 404-414) of processCommand, for the engine method `op`
(merge or extract): an empty keystream file name selects the password form,
any other name the keystream form.  The result is `false` when the two
password entries differ or when an exception was caught. -/
def keyedCall (cfg : Config) (op : Nat → Option CString → KeyMaterial → Event)
    (szFilename szKeyFilename : CString) (w : World) : Bool × World :=
  if szKeyFilename.length = 0 then
    match getPassword (cfg.PASSWORD_BUFFER_LENGTH - 1) w with
    | (.error e, w2) => (false, w2.emit (.printException e))
    | (.ok none, w2) => (false, w2)
    | (.ok (some szPassword), w2) =>
      match w2.call (op w2.bitsPerByte (some szFilename) (.password (some szPassword))) with
      | (true, w3) => (true, w3)
      | (false, w3) => (false, w3.emit (.printException .engine))
  else
    match getKeyStream (some szKeyFilename) w with
    | (false, w2) => (false, w2.emit (.printException .engine))
    | (true, w2) =>
      match w2.call (op w2.bitsPerByte (some szFilename) (.keystream (some szKeyFilename))) with
      | (true, w3) => (true, w3)
      | (false, w3) => (false, w3.emit (.printException .engine))

/-- The body of the `merge` and `extract file` commands (main.cpp 363-390 and
393-420), which differ in the prompt for the output file and in the engine
method `op` they call: the density is asked for when the engine reports 0,
then the two file names are read and the engine is called. -/
def keyedCommand (cfg : Config) (prompt : String)
    (op : Nat → Option CString → KeyMaterial → Event) (w : World) : Bool × World :=
  match (if w.bitsPerByte = 0 then getBitsPerByte cfg w else (.ok (), w)) with
  | (.error e, w1) => (false, w1.emit (.printException e))
  | (.ok _, w1) =>
    let r1 := cinGetline cfg.FILENAME_BUFFER_LENGTH (w1.emit (.print prompt))
    let r2 := cinGetline cfg.FILENAME_BUFFER_LENGTH
      (r1.2.emit (.print "Enter keystream filename (Enter = none): "))
    keyedCall cfg op r1.1 r2.1 r2.2

/-- The function `processCommand`, run on the engine held in its static
variable: the command is compared with each command word by `_strcmpi`, in the
order of the source; an exception is printed and `false` is returned. -/
def processCommand (cfg : Config) (pszCommand : CString) (w : World) : Bool × World :=
  if _strcmpi pszCommand "help".toList = 0 ∨ _strcmpi pszCommand "?".toList = 0 then
    (true, w.emit .printHelp)
  else if _strcmpi pszCommand "load image".toList = 0 ∨ _strcmpi pszCommand "li".toList = 0 then
    let r := cinGetline cfg.FILENAME_BUFFER_LENGTH (w.emit (.print "Enter input image filename: "))
    match r.2.call (.loadSourceImage (some r.1)) with
    | (true, w1) => (true, w1)
    | (false, w1) => (false, w1.emit (.printException .engine))
  else if _strcmpi pszCommand "load file".toList = 0 ∨ _strcmpi pszCommand "lf".toList = 0 then
    let r := cinGetline cfg.FILENAME_BUFFER_LENGTH (w.emit (.print "Enter input filename: "))
    match r.2.call (.loadSourceDataFile (some r.1)) with
    | (true, w1) => (true, w1)
    | (false, w1) => (false, w1.emit (.printException .engine))
  else if _strcmpi pszCommand "merge".toList = 0 ∨ _strcmpi pszCommand "m".toList = 0 then
    keyedCommand cfg "Enter output image filename: " Event.merge w
  else if _strcmpi pszCommand "extract file".toList = 0
      ∨ _strcmpi pszCommand "ef".toList = 0 then
    keyedCommand cfg "Enter extracted filename: " Event.extract w
  else if _strcmpi pszCommand "copy".toList = 0 ∨ _strcmpi pszCommand "c".toList = 0 then
    let r := cinGetline cfg.FILENAME_BUFFER_LENGTH (w.emit (.print "Enter output image filename: "))
    match r.2.call (.copy (some r.1)) with
    | (true, w1) => (true, w1)
    | (false, w1) => (false, w1.emit (.printException .engine))
  else if _strcmpi pszCommand "set bits".toList = 0 ∨ _strcmpi pszCommand "sb".toList = 0 then
    match getBitsPerByte cfg w with
    | (.ok _, w1) => (true, w1)
    | (.error e, w1) => (false, w1.emit (.printException e))
  else if _strcmpi pszCommand "quit".toList = 0 ∨ _strcmpi pszCommand "exit".toList = 0
      ∨ _strcmpi pszCommand "q".toList = 0 then
    (false, (w.emit (.print "bye...")).emit .deleteCloak)
  else (true, w)

/-- The command loop of `main`, for at most `fuel` commands: the prompt is
printed, a line of at most 511 characters is read and handed to
processCommand, and the loop goes on while that returns `true`. -/
def mainLoop (cfg : Config) : Nat → World → World
  | 0, w => w
  | fuel + 1, w =>
    let r := cinGetline 512 (w.emit (.print "cloak> "))
    let p := processCommand cfg r.1 r.2
    if p.1 then mainLoop cfg fuel p.2 else p.2

/-! ## `processParams` (main.cpp 133-296) -/

/-- The local variables of processParams that the option loop sets.  A file
name that no option has set is `none`. -/
structure Params where
  mode : Mode
  keyMode : KeyMode
  bPrintInfo : Bool
  usBitsPerByte : Nat
  szInputFileName : Option CString
  szOutputFileName : Option CString
  szSecretFileName : Option CString
  szKeyFileName : Option CString
  deriving DecidableEq, Repr

/-- The values of the locals on entry; `garbage` is the indeterminate value of
the uninitialised `usBitsPerByte`. -/
def Params.entry (garbage : Nat) : Params :=
  { mode := .MODE_INFO_ONLY, keyMode := .KEY_PASSWD, bPrintInfo := false,
    usBitsPerByte := garbage, szInputFileName := none, szOutputFileName := none,
    szSecretFileName := none, szKeyFileName := none }

/-- How the option loop ends: with the usage text (`-?`, `-h`), by reading the
null pointer `argv[argc]` as a file name, or at `i = argc`.  `reads` lists the
indices `j` of the `argv[j]` that were read, in order. -/
inductive Scan
  | usage (reads : List Nat)
  | nullArg (reads : List Nat)
  | done (p : Params) (reads : List Nat)
  deriving DecidableEq, Repr

/-- The four file name buffers of processParams. -/
inductive FileOption
  | input
  | secret
  | output
  | key
  deriving DecidableEq, Repr

/-- What one round of the option loop does with `argv[i]`: it prints the usage
and returns, it goes on to `argv[i+1]` with the locals updated, or it copies
`argv[++i]` into a file name buffer. -/
inductive ArgStep
  | usage
  | next (p : Params)
  | take (buffer : FileOption)
  deriving DecidableEq, Repr

/-- The body of the option loop for the argument `a = argv[i]` (main.cpp
149-198): only an argument that starts with `-` or `/` is looked at, and the
switch is over its second character (the NUL of a one-character argument
matches no case). -/
def argStep (cfg : Config) (a : CString) (p : Params) : ArgStep :=
  if a.head? = some '-' ∨ a.head? = some '/' then
    match a.tail.head? with
    | none => .next p
    | some c =>
      if c = '?' ∨ c = 'h' then .usage
      else if c = 'a' then .next { p with mode := .MODE_ADD }
      else if c = 'e' then .next { p with mode := .MODE_EXTRACT }
      else if c = 'c' then .next { p with mode := .MODE_COPY }
      else if c = 'v' then .next { p with bPrintInfo := true }
      else if c = 'i' then .take .input
      else if c = 's' then .take .secret
      else if c = 'o' then .take .output
      else if c = 'k' then .take .key
      else if c = 'b' then
        .next { p with
          usBitsPerByte :=
            castUnsigned cfg.wordBits (castUnsigned cfg.byteBits (atoi (a.drop 2))) }
      else .next p
  else .next p

/-- The copy `strcpy_s (buffer, FILENAME_BUFFER_LENGTH, f)` of a file name
option; the `k` option also sets `keyMode`.  The name is taken to fit the
buffer. -/
def Params.setFile (p : Params) (buffer : FileOption) (f : CString) : Params :=
  match buffer with
  | .input => { p with szInputFileName := some f }
  | .secret => { p with szSecretFileName := some f }
  | .output => { p with szOutputFileName := some f }
  | .key => { p with szKeyFileName := some f, keyMode := .KEY_STREAM }

/-- The option loop of processParams (main.cpp 148-199) at index `i`, where the
list is `argv[i], ..., argv[argc-1]`.  A file name option takes `argv[++i]`
whatever it is, and when there is none it reads the null pointer `argv[argc]`. -/
def scanArgs (cfg : Config) : List CString → Nat → Params → List Nat → Scan
  | [], _, p, reads => .done p reads
  | a :: rest, i, p, reads =>
    match argStep cfg a p with
    | .usage => .usage (reads ++ [i])
    | .next p2 => scanArgs cfg rest (i + 1) p2 (reads ++ [i])
    | .take buffer =>
      match rest with
      | [] => .nullArg (reads ++ [i, i + 1])
      | f :: rest2 => scanArgs cfg rest2 (i + 2) (p.setFile buffer f) (reads ++ [i, i + 1])

/-- How processParams ends: it returns, an exception leaves it (getKeyStream is
called outside every try block), or the null pointer `argv[argc]` is handed to
`strcpy_s`. -/
inductive Exit
  | returned
  | uncaught (e : ErrCode)
  | nullArg
  deriving DecidableEq, Repr

/-- The key material processParams hands to merge and extract: `szPassword`
when `keyMode` is KEY_PASSWD, the keystream read from `szKeyFileName` when it
is KEY_STREAM. -/
def keyOf (p : Params) (szPassword : Option CString) : KeyMaterial :=
  match p.keyMode with
  | .KEY_PASSWD => .password szPassword
  | .KEY_STREAM => .keystream p.szKeyFileName

/-- The body of the try block processParams runs for its mode (main.cpp
231-293), up to the first call that throws: the result is `false` when one
did. -/
def tryMode (p : Params) (szPassword : Option CString) (w : World) : Bool × World :=
  match p.mode with
  | .MODE_ADD =>
    match w.call (.loadSourceImage p.szInputFileName) with
    | (false, w1) => (false, w1)
    | (true, w1) =>
      match (if p.bPrintInfo then w1.emit .printHeaderInfo else w1).call
          (.loadSourceDataFile p.szSecretFileName) with
      | (false, w2) => (false, w2)
      | (true, w2) => w2.call (.merge w2.bitsPerByte p.szOutputFileName (keyOf p szPassword))
  | .MODE_EXTRACT =>
    match w.call (.loadSourceImage p.szInputFileName) with
    | (false, w1) => (false, w1)
    | (true, w1) =>
      (if p.bPrintInfo then w1.emit .printHeaderInfo else w1).call
        (.extract (if p.bPrintInfo then w1.emit .printHeaderInfo else w1).bitsPerByte
          p.szOutputFileName (keyOf p szPassword))
  | .MODE_COPY =>
    match w.call (.loadSourceImage p.szInputFileName) with
    | (false, w1) => (false, w1)
    | (true, w1) =>
      (if p.bPrintInfo then w1.emit .printHeaderInfo else w1).call (.copy p.szOutputFileName)
  | .MODE_INFO_ONLY => (true, w)

/-- Lines 227-296 of processParams: the engine is constructed, given the
density, used according to the mode, and deleted; an exception of the engine is
caught and printed first. -/
def runEngine (cfg : Config) (p : Params) (usBitsPerByte : Nat)
    (szPassword : Option CString) (w : World) : World :=
  let w1 := setBitsPerByte usBitsPerByte
    { w.emit .newCloak with bitsPerByte := cfg.freshBitsPerByte }
  match tryMode p szPassword w1 with
  | (true, w2) => w2.emit .deleteCloak
  | (false, w2) => (w2.emit (.printException .engine)).emit .deleteCloak

/-- Lines 201-296 of processParams, run on the values the option loop left in
the locals: the density is validated unless the mode is MODE_COPY, the password
is asked for or the keystream read, and the engine is run. -/
def runParams (cfg : Config) (p : Params) (w : World) : Exit × World :=
  if p.mode ≠ .MODE_COPY then
    if p.usBitsPerByte ≠ 1 ∧ p.usBitsPerByte ≠ 2 ∧ p.usBitsPerByte ≠ 4 then
      (.returned, w.emit (.print "\nBits per byte must be specified as 1, 2 or 4"))
    else
      match p.keyMode with
      | .KEY_PASSWD =>
        match getPassword 64 w with
        | (.error e, w1) => (.returned, w1.emit (.printException e))
        | (.ok none, w1) => (.returned, w1)
        | (.ok (some szPassword), w1) =>
          (.returned, runEngine cfg p p.usBitsPerByte (some szPassword) w1)
      | .KEY_STREAM =>
        match getKeyStream p.szKeyFileName w with
        | (false, w1) => (.uncaught .engine, w1)
        | (true, w1) => (.returned, runEngine cfg p p.usBitsPerByte none w1)
  else (.returned, runEngine cfg p 1 none w)

/-- The function `processParams` on the argument vector `argv` (with `argv[0]`
the program name): the option loop from index 1, then the rest of the
function. -/
def processParams (cfg : Config) (garbage : Nat) (argv : List CString) (w : World) :
    Exit × World :=
  match scanArgs cfg (argv.drop 1) 1 (Params.entry garbage) [] with
  | .usage _ => (.returned, w.emit .printUsage)
  | .nullArg _ => (.nullArg, w)
  | .done p _ => runParams cfg p w

/-- The function `main`: with arguments processParams is run, without them the
command loop on a freshly constructed engine. -/
def main (cfg : Config) (garbage fuel : Nat) (argv : List CString) (w : World) : World :=
  if argv.length > 1 then (processParams cfg garbage argv w).2
  else mainLoop cfg fuel { w with bitsPerByte := cfg.freshBitsPerByte }

/-- The command words processCommand compares its argument with. -/
def commandWords : List CString :=
  ["help".toList, "?".toList, "load image".toList, "li".toList, "load file".toList,
   "lf".toList, "merge".toList, "m".toList, "extract file".toList, "ef".toList,
   "copy".toList, "c".toList, "set bits".toList, "sb".toList, "quit".toList,
   "exit".toList, "q".toList]

/-- A sequence of processCommand calls on the commands of a list, each on the
state the one before left, ended as in `main` by the first that returns
`false`. -/
def runCommands (cfg : Config) : List CString → World → World
  | [], w => w
  | c :: cs, w =>
    if (processCommand cfg c w).1 then runCommands cfg cs (processCommand cfg c w).2
    else (processCommand cfg c w).2

/-! ## Observations on a trace -/

/-- A call of the engine's merge or extract. -/
def Event.isKeyed : Event → Bool
  | .merge _ _ _ => true
  | .extract _ _ _ => true
  | _ => false

/-- An error report on the console: a caught exception that is printed, or
the message that the two password entries differ. -/
def Event.isError : Event → Bool
  | .printException _ => true
  | .print text => text = "\nThe passwords do not match!"
  | _ => false

/-- The events that the properties below observe: the calls of merge and
extract, the error reports, the prompt for a password, and the deletion of the
engine. -/
def Event.isSig : Event → Bool
  | .deleteCloak => true
  | .print text => text = "Enter password: " || text = "\nThe passwords do not match!"
  | e => e.isKeyed || e.isError

/-- The observed events of a trace, in order. -/
def sig (tr : List Event) : List Event := tr.filter Event.isSig

/-- The density a merge or extract call was made at is 1, 2 or 4; every other
event is unconstrained. -/
def Event.densityOK : Event → Prop
  | .merge b _ _ => b = 1 ∨ b = 2 ∨ b = 4
  | .extract b _ _ => b = 1 ∨ b = 2 ∨ b = 4
  | _ => True

/-- The ways lines 374-384 of processCommand can go for the engine method `op`
called at density `b` on the file `name` with the keystream file name `key`:
`ret` is the value returned and `obs` the observed events, in order. -/
def KeyedOutcome (op : Nat → Option CString → KeyMaterial → Event) (b : Nat)
    (name key : CString) (ret : Bool) (obs : List Event) : Prop :=
  (key = [] ∧ ret = false ∧ ∃ e, obs = [.print "Enter password: ", .printException e]) ∨
  (key = [] ∧ ret = false ∧
    obs = [.print "Enter password: ", .print "\nThe passwords do not match!"]) ∨
  (key = [] ∧ ret = true ∧ ∃ pwd,
    obs = [.print "Enter password: ", op b (some name) (.password (some pwd))]) ∨
  (key = [] ∧ ret = false ∧ ∃ pwd,
    obs = [.print "Enter password: ", op b (some name) (.password (some pwd)),
      .printException .engine]) ∨
  (key ≠ [] ∧ ret = false ∧ obs = [.printException .engine]) ∨
  (key ≠ [] ∧ ret = true ∧ obs = [op b (some name) (.keystream (some key))]) ∨
  (key ≠ [] ∧ ret = false ∧
    obs = [op b (some name) (.keystream (some key)), .printException .engine])

/-- The command is `quit`, `exit` or `q`, compared as processCommand does. -/
def isQuit (pszCommand : CString) : Prop :=
  _strcmpi pszCommand "quit".toList = 0 ∨ _strcmpi pszCommand "exit".toList = 0
    ∨ _strcmpi pszCommand "q".toList = 0

/-- The density `b` is one the engine may hold after a density check that
started from the density `b0`: 1, 2 or 4, or `b0` itself when that is not 0. -/
def CheckedDensity (b0 b : Nat) : Prop :=
  b = 1 ∨ b = 2 ∨ b = 4 ∨ (b = b0 ∧ b0 ≠ 0)

/-- The ways a call of processCommand can go: `ret` is the value returned,
`b0` and `b` the engine's density before and after, and `obs` the observed
events of the call, in order. -/
def CommandOutcome (pszCommand : CString) (b0 b : Nat) (ret : Bool) (obs : List Event) :
    Prop :=
  (isQuit pszCommand ∧ ret = false ∧ obs = [.deleteCloak] ∧ b = b0) ∨
  (¬ isQuit pszCommand ∧ ret = true ∧ obs = [] ∧ (b = b0 ∨ b = 1 ∨ b = 2 ∨ b = 4)) ∨
  (¬ isQuit pszCommand ∧ ret = false ∧ b = b0 ∧ ∃ e, obs = [.printException e]) ∨
  (¬ isQuit pszCommand ∧ CheckedDensity b0 b ∧
    ∃ op name key, (op = Event.merge ∨ op = Event.extract) ∧ KeyedOutcome op b name key ret obs)

/-- The merge and extract calls of a trace, in order. -/
def keyedCalls (tr : List Event) : List Event := tr.filter Event.isKeyed

/-- The ways lines 227-296 of processParams can go at density `b` with the key
material `k`: `obs` lists the observed events, in order. -/
def EngineOutcome (p : Params) (b : Nat) (k : KeyMaterial) (obs : List Event) : Prop :=
  match p.mode with
  | .MODE_ADD =>
    obs = [.printException .engine, .deleteCloak] ∨
    obs = [.merge b p.szOutputFileName k, .deleteCloak] ∨
    obs = [.merge b p.szOutputFileName k, .printException .engine, .deleteCloak]
  | .MODE_EXTRACT =>
    obs = [.printException .engine, .deleteCloak] ∨
    obs = [.extract b p.szOutputFileName k, .deleteCloak] ∨
    obs = [.extract b p.szOutputFileName k, .printException .engine, .deleteCloak]
  | .MODE_COPY => obs = [.printException .engine, .deleteCloak] ∨ obs = [.deleteCloak]
  | .MODE_INFO_ONLY => obs = [.deleteCloak]

/-- The ways lines 201-296 of processParams can go on the locals `p`: `ex` is
how the function ends and `obs` lists the observed events, in order. -/
def ParamsOutcome (p : Params) (ex : Exit) (obs : List Event) : Prop :=
  if p.mode = .MODE_COPY then ex = .returned ∧ EngineOutcome p 1 (keyOf p none) obs
  else if p.usBitsPerByte ≠ 1 ∧ p.usBitsPerByte ≠ 2 ∧ p.usBitsPerByte ≠ 4 then
    ex = .returned ∧ obs = []
  else
    match p.keyMode with
    | .KEY_PASSWD =>
      ex = .returned ∧
        ((∃ e, obs = [.print "Enter password: ", .printException e]) ∨
          obs = [.print "Enter password: ", .print "\nThe passwords do not match!"] ∨
          ∃ pwd rest, obs = .print "Enter password: " :: rest ∧
            EngineOutcome p p.usBitsPerByte (.password (some pwd)) rest)
    | .KEY_STREAM =>
      (ex = .uncaught .engine ∧ obs = []) ∨
      (ex = .returned ∧ EngineOutcome p p.usBitsPerByte (.keystream p.szKeyFileName) obs)

/-- The option letters of a command line, in order: the second character of
every argument that starts with `-` or `/`, where the argument after an option
`i`, `s`, `o` or `k` is that option's file name and is no option itself. -/
def optionLetters : List CString → List Char
  | [] => []
  | a :: rest =>
    if a.head? = some '-' ∨ a.head? = some '/' then
      match a.tail.head? with
      | some c =>
        if c = 'i' ∨ c = 's' ∨ c = 'o' ∨ c = 'k' then
          match rest with
          | [] => [c]
          | _ :: rest2 => c :: optionLetters rest2
        else c :: optionLetters rest
      | none => optionLetters rest
    else optionLetters rest

/-- The engine call that the mode of processParams asks for, with the key
material `k`. -/
def Params.call (p : Params) (k : KeyMaterial) : Event :=
  match p.mode with
  | .MODE_EXTRACT => .extract p.usBitsPerByte p.szOutputFileName k
  | _ => .merge p.usBitsPerByte p.szOutputFileName k

/-! ## The cloaking engine (spec sections 3 and 4) -/

/-- Modelled from the spec: the engine behind `cloak.h` (merge, extract and
what they use) is not part of the source.  A byte of an image, a payload or a
key. -/
abbrev Byte := Fin 256

/-- Modelled from the spec: the RasterImage of section 3, missing from the
source; `imageDataLength` is the length of `pixelData`. -/
structure RasterImage where
  width : Nat
  height : Nat
  bitsPerPixel : Nat
  pixelData : List Byte
  formatHeader : List Byte
  deriving DecidableEq, Repr

/-- Modelled from the spec: the error taxonomy of section 7, missing from the
source. -/
inductive EngineError
  | FileError
  | FormatError
  | ValidationError
  | CapacityExceeded
  | CorruptStream
  | KeyError
  deriving DecidableEq, Repr

/-- Modelled from the spec: `computeCapacity` of section 4.2, missing from the
source, `floor (imageDataLength * density / 8)`. -/
def computeCapacity (imageDataLength density : Nat) : Nat :=
  imageDataLength * density / 8

/-- Modelled from the spec: `validate` of section 4.2, missing from the
source: CapacityExceeded when the four bytes of the length prefix and the
transformed payload do not fit. -/
def validate (payloadLengthAfterTransform capacity : Nat) : Except EngineError Unit :=
  if 4 + payloadLengthAfterTransform > capacity then .error .CapacityExceeded else .ok ()

/-- Modelled from the spec: the `n` low bits of `v`, most significant first,
where `v.testBit k` is the bit of weight `2 ^ k` (the bit order of section
4.4, missing from the source). -/
def toBits : Nat → Nat → List Bool
  | 0, _ => []
  | n + 1, v => v.testBit n :: toBits n v

/-- Modelled from the spec: the number a bit sequence spells, most significant
bit first (section 4.4, missing from the source). -/
def ofBits : List Bool → Nat
  | [] => 0
  | b :: bs => (if b then 2 ^ bs.length else 0) + ofBits bs

/-- Modelled from the spec: the eight bits of a source byte, most significant
first (section 4.4, missing from the source). -/
def byteBits (b : Byte) : List Bool := toBits 8 b.val

/-- Modelled from the spec: the 32-bit big-endian length prefix of section
4.4, missing from the source. -/
def lengthPrefix (n : Nat) : List Byte :=
  [Fin.ofNat (n / 2 ^ 24), Fin.ofNat (n / 2 ^ 16), Fin.ofNat (n / 2 ^ 8), Fin.ofNat n]

/-- Modelled from the spec: the bit-source stream of Embed step 1 (section
4.4, missing from the source): the length prefix, then the payload bytes, as
one bit sequence. -/
def bitSource (transformedPayload : List Byte) : List Bool :=
  (lengthPrefix transformedPayload.length ++ transformedPayload).flatMap byteBits

/-- Modelled from the spec: Embed steps 2 and 3 (section 4.4, missing from the
source).  Each image byte takes the next `density` bits of the stream, padded
with zeros when the stream ends inside it, into its low bits and keeps its
high bits; once the stream is consumed the bytes are left untouched. -/
def embedBits (density : Nat) : List Bool → List Byte → List Byte
  | [], image => image
  | _ :: _, [] => []
  | bit :: bits, b :: image =>
    Fin.ofNat (b.val / 2 ^ density * 2 ^ density +
        ofBits ((bit :: bits).take density ++
          List.replicate (density - ((bit :: bits).take density).length) false)) ::
      embedBits density ((bit :: bits).drop density) image

/-- Modelled from the spec: the low `density` bits of an image byte, most
significant first (section 4.4, missing from the source). -/
def lowBits (density : Nat) (b : Byte) : List Bool := toBits density b.val

/-- Modelled from the spec: the low bits of the first `count` image bytes,
concatenated (Extract steps 1 and 3 of section 4.4, missing from the source). -/
def readBits (density count : Nat) (image : List Byte) : List Bool :=
  (image.take count).flatMap (lowBits density)

/-- Modelled from the spec: `count` bytes rebuilt from a bit sequence, eight
bits each, most significant first (Extract step 3, missing from the source). -/
def bytesOfBits : Nat → List Bool → List Byte
  | 0, _ => []
  | count + 1, bits => Fin.ofNat (ofBits (bits.take 8)) :: bytesOfBits count (bits.drop 8)

/-- Modelled from the spec: `ceil (32 / density)`, the number of image bytes
that carry the length prefix (Extract step 1, missing from the source). -/
def prefixBytes (density : Nat) : Nat := (32 + density - 1) / density

/-- Modelled from the spec: BitCodec.Extract of section 4.4, missing from the
source: the length prefix `L` is read, CorruptStream is the result when it
exceeds the capacity, and otherwise `L` bytes are rebuilt from the image bytes
that follow. -/
def extractBits (density : Nat) (image : List Byte) : Except EngineError (List Byte) :=
  if ofBits (readBits density (prefixBytes density) image) >
      computeCapacity image.length density then
    .error .CorruptStream
  else
    .ok (bytesOfBits (ofBits (readBits density (prefixBytes density) image))
      (readBits density
        ((8 * ofBits (readBits density (prefixBytes density) image) + density - 1) / density)
        (image.drop (prefixBytes density))))

/-- Modelled from the spec: the keystream transform of section 4.3, missing
from the source: payload byte `i` is combined by exclusive or with keystream
byte `i mod K`; `i` is the index of the first byte of the list. -/
def xorFrom (keystream : List Byte) : Nat → List Byte → List Byte
  | _, [] => []
  | i, b :: payload =>
    (b ^^^ keystream.getD (i % keystream.length) 0) :: xorFrom keystream (i + 1) payload

/-- Modelled from the spec: the keystream transform of a whole payload
(section 4.3, missing from the source). -/
def xorStream (keystream payload : List Byte) : List Byte := xorFrom keystream 0 payload

/-- Modelled from the spec: the block cipher and key derivation of the
password variant (section 4.3), missing from the source and left open by the
spec: any deterministic key derivation and any cipher that decrypts what it
encrypted, for every key and every payload length. -/
structure BlockCipher where
  deriveKey : List Byte → List Byte
  encrypt : List Byte → List Byte → List Byte
  decrypt : List Byte → List Byte → List Byte
  decrypt_encrypt : ∀ key payload, decrypt key (encrypt key payload) = payload

/-- Modelled from the spec: the two kinds of key material of section 9,
missing from the source. -/
inductive SecretMaterial
  | Password (password : List Byte)
  | Keystream (bytes : List Byte)
  deriving DecidableEq, Repr

/-- Modelled from the spec: the bytes CipherLayer.transform produces (section
4.3, missing from the source): two encryption passes with the derived key, or
the keystream exclusive or. -/
def transformed (C : BlockCipher) : SecretMaterial → List Byte → List Byte
  | .Password password, payload =>
    C.encrypt (C.deriveKey password) (C.encrypt (C.deriveKey password) payload)
  | .Keystream bytes, payload => xorStream bytes payload

/-- Modelled from the spec: the inverse of the transform (section 4.3, missing
from the source): two decryption passes, or the same exclusive or. -/
def untransformed (C : BlockCipher) : SecretMaterial → List Byte → List Byte
  | .Password password, bytes =>
    C.decrypt (C.deriveKey password) (C.decrypt (C.deriveKey password) bytes)
  | .Keystream keystream, bytes => xorStream keystream bytes

/-- Modelled from the spec: the key material is usable; an empty keystream is
a KeyError (section 4.3, missing from the source). -/
def checkKey : SecretMaterial → Except EngineError Unit
  | .Keystream [] => .error .KeyError
  | _ => .ok ()

/-- Modelled from the spec: `merge` of section 4.5, missing from the source,
with the output image as its result: the density must be set, then
CipherLayer.transform, CapacityPlanner.validate and BitCodec.embed run; when
one fails the image is not touched. -/
def merge (C : BlockCipher) (image : RasterImage) (payload : List Byte) (density : Nat)
    (material : SecretMaterial) : Except EngineError RasterImage :=
  if ¬ (density = 1 ∨ density = 2 ∨ density = 4) then .error .ValidationError
  else
    match checkKey material with
    | .error e => .error e
    | .ok _ =>
      match validate (transformed C material payload).length
          (computeCapacity image.pixelData.length density) with
      | .error e => .error e
      | .ok _ =>
        .ok { image with
          pixelData :=
            embedBits density (bitSource (transformed C material payload)) image.pixelData }

/-- Modelled from the spec: `extract` of section 4.5, missing from the source,
with the recovered payload as its result: the density must be set, then
BitCodec.extract and the inverse of the transform run. -/
def extract (C : BlockCipher) (image : RasterImage) (density : Nat)
    (material : SecretMaterial) : Except EngineError (List Byte) :=
  if ¬ (density = 1 ∨ density = 2 ∨ density = 4) then .error .ValidationError
  else
    match checkKey material with
    | .error e => .error e
    | .ok _ =>
      match extractBits density image.pixelData with
      | .error e => .error e
      | .ok bytes => .ok (untransformed C material bytes)

/-- The command line `cloak -a -b2 -k key.bin -i in.bmp -s note.txt -o out.bmp`. -/
def exampleArgv : List CString :=
  ["cloak".toList, "-a".toList, "-b2".toList, "-k".toList, "key.bin".toList, "-i".toList,
   "in.bmp".toList, "-s".toList, "note.txt".toList, "-o".toList, "out.bmp".toList]

/-- The locals of processParams after the option loop on `exampleArgv`. -/
def exampleParams : Params :=
  { mode := .MODE_ADD, keyMode := .KEY_STREAM, bPrintInfo := false, usBitsPerByte := 2,
    szInputFileName := some "in.bmp".toList, szOutputFileName := some "out.bmp".toList,
    szSecretFileName := some "note.txt".toList, szKeyFileName := some "key.bin".toList }

/-- The command line `cloak -a -b257 -k key.bin -i in.bmp -s note.txt -o out.bmp`. -/
def argvB257 : List CString :=
  ["cloak".toList, "-a".toList, "-b257".toList, "-k".toList, "key.bin".toList, "-i".toList,
   "in.bmp".toList, "-s".toList, "note.txt".toList, "-o".toList, "out.bmp".toList]

/-- A session that has done nothing yet: the console input `input`, the
outcomes `calls` of the coming engine operations, and an engine at density 0. -/
def startWorld (input : String) (calls : List Bool) : World :=
  { stdin := input.toList, cinFail := false, calls := calls, bitsPerByte := 0, trace := [] }

/-! # Theorems -/

/-! ## Properties of `_strcmpi` -/

theorem strcmpiLoop_eq (s : CString) :
    ∀ t : CString, s.length = t.length →
      strcmpiLoop s t = if s.map toupper = t.map toupper then 0 else -1 := by
  induction s with
  | nil =>
    intro t h
    cases t with
    | nil => simp [strcmpiLoop]
    | cons d t => simp at h
  | cons c s ih =>
    intro t h
    cases t with
    | nil => simp at h
    | cons d t =>
      have hl : s.length = t.length := by simpa using h
      by_cases hc : toupper c = toupper d
      · simp [strcmpiLoop, hc, ih t hl]
      · simp [strcmpiLoop, hc]

theorem strcmpi_eq_ite (s t : CString) :
    _strcmpi s t = if s.map toupper = t.map toupper then 0 else -1 := by
  unfold _strcmpi
  by_cases h : s.length = t.length
  · simp [h, strcmpiLoop_eq s t h]
  · have hne : s.map toupper ≠ t.map toupper := by
      intro he
      apply h
      have := congrArg List.length he
      simpa using this
    simp [h, hne]

theorem strcmpi_zero_iff_map (s t : CString) :
    _strcmpi s t = 0 ↔ s.map toupper = t.map toupper := by
  rw [strcmpi_eq_ite]
  by_cases h : s.map toupper = t.map toupper <;> simp [h]

theorem map_toupper_eq_iff (s : CString) :
    ∀ t : CString, s.map toupper = t.map toupper ↔
      s.length = t.length ∧
        ∀ i : Nat, i < s.length → toupper (s.getD i ' ') = toupper (t.getD i ' ') := by
  induction s with
  | nil =>
    intro t
    cases t with
    | nil => simp
    | cons d t => simp
  | cons c s ih =>
    intro t
    cases t with
    | nil => simp
    | cons d t =>
      simp only [List.map_cons, List.cons.injEq, ih t, List.length_cons, add_left_inj]
      constructor
      · rintro ⟨hc, hl, hi⟩
        refine ⟨hl, ?_⟩
        intro i hlt
        cases i with
        | zero => simpa using hc
        | succ j => simpa using hi j (by omega)
      · rintro ⟨hl, hi⟩
        refine ⟨by simpa using hi 0 (by omega), hl, ?_⟩
        intro j hj
        simpa using hi (j + 1) (by omega)

theorem strcmpi_congr_left {s s2 : CString} (h : _strcmpi s s2 = 0) (x : CString) :
    _strcmpi s x = _strcmpi s2 x := by
  rw [strcmpi_zero_iff_map] at h
  rw [strcmpi_eq_ite, strcmpi_eq_ite, h]

theorem processCommand_congr (cfg : Config) {s s2 : CString}
    (h : ∀ x, _strcmpi s x = _strcmpi s2 x) (w : World) :
    processCommand cfg s w = processCommand cfg s2 w := by
  unfold processCommand
  simp only [h]

theorem processCommand_unmatched (cfg : Config) (s : CString) (w : World)
    (h : ∀ wd ∈ commandWords, _strcmpi s wd ≠ 0) : processCommand cfg s w = (true, w) := by
  simp only [commandWords, List.forall_mem_cons] at h
  obtain ⟨h1, h2, h3, h4, h5, h6, h7, h8, h9, h10, h11, h12, h13, h14, h15, h16, h17, -⟩ := h
  unfold processCommand
  simp only [h1, h2, h3, h4, h5, h6, h7, h8, h9, h10, h11, h12, h13, h14, h15, h16, h17,
    or_self, if_false]

/-! ## The effect of the helpers on the engine and on the trace -/

@[simp] theorem emit_trace (w : World) (e : Event) : (w.emit e).trace = w.trace ++ [e] := rfl

@[simp] theorem emit_bitsPerByte (w : World) (e : Event) :
    (w.emit e).bitsPerByte = w.bitsPerByte := rfl

@[simp] theorem call_trace (w : World) (e : Event) : (w.call e).2.trace = w.trace ++ [e] := by
  unfold World.call
  split <;> rfl

@[simp] theorem call_bitsPerByte (w : World) (e : Event) :
    (w.call e).2.bitsPerByte = w.bitsPerByte := by
  unfold World.call
  split <;> rfl

@[simp] theorem cinGetline_trace (n : Nat) (w : World) : (cinGetline n w).2.trace = w.trace := by
  unfold cinGetline
  split <;> rfl

@[simp] theorem cinGetline_bitsPerByte (n : Nat) (w : World) :
    (cinGetline n w).2.bitsPerByte = w.bitsPerByte := by
  unfold cinGetline
  split <;> rfl

@[simp] theorem sig_append (a b : List Event) : sig (a ++ b) = sig a ++ sig b := by
  simp [sig]

@[simp] theorem sig_nil : sig [] = [] := rfl

theorem sig_cons (e : Event) (l : List Event) :
    sig (e :: l) = if e.isSig = true then e :: sig l else sig l := by
  simp only [sig, List.filter_cons]

@[simp] theorem isSig_print (t : String) :
    (Event.print t).isSig =
      (decide (t = "Enter password: ") || decide (t = "\nThe passwords do not match!")) := rfl

@[simp] theorem isSig_printException (e : ErrCode) : (Event.printException e).isSig = true := rfl

@[simp] theorem isSig_deleteCloak : Event.deleteCloak.isSig = true := rfl

@[simp] theorem isSig_merge (b : Nat) (n : Option CString) (k : KeyMaterial) :
    (Event.merge b n k).isSig = true := rfl

@[simp] theorem isSig_extract (b : Nat) (n : Option CString) (k : KeyMaterial) :
    (Event.extract b n k).isSig = true := rfl

@[simp] theorem isSig_printUsage : Event.printUsage.isSig = false := rfl

@[simp] theorem isSig_printHelp : Event.printHelp.isSig = false := rfl

@[simp] theorem isSig_printHeaderInfo : Event.printHeaderInfo.isSig = false := rfl

@[simp] theorem isSig_newCloak : Event.newCloak.isSig = false := rfl

@[simp] theorem isSig_setBitsPerByte (n : Nat) : (Event.setBitsPerByte n).isSig = false := rfl

@[simp] theorem isSig_loadSourceImage (n : Option CString) :
    (Event.loadSourceImage n).isSig = false := rfl

@[simp] theorem isSig_loadSourceDataFile (n : Option CString) :
    (Event.loadSourceDataFile n).isSig = false := rfl

@[simp] theorem isSig_copy (n : Option CString) : (Event.copy n).isSig = false := rfl

@[simp] theorem isSig_getKeyStream (n : Option CString) :
    (Event.getKeyStream n).isSig = false := rfl

theorem getpwdLoop_echo (maxLen : Nat) (s : List Char) :
    ∀ (i : Nat) (acc : List Char), sig (getpwdLoop maxLen s i acc).2.2 = [] := by
  induction s with
  | nil =>
    intro i acc
    simp [getpwdLoop, sig, List.filter_eq_nil_iff]
  | cons c s ih =>
    intro i acc
    unfold getpwdLoop
    split
    · split
      · split
        · simp [sig_cons]
        · simp [sig_cons, ih]
      · simp
    · simp [sig_cons]

@[simp] theorem getpwd_sig (maxLen : Nat) (w : World) :
    sig (getpwd maxLen w).2.trace = sig w.trace := by
  unfold getpwd
  dsimp only
  split <;> simp [getpwdLoop_echo]

@[simp] theorem getpwd_bitsPerByte (maxLen : Nat) (w : World) :
    (getpwd maxLen w).2.bitsPerByte = w.bitsPerByte := by
  unfold getpwd
  dsimp only
  split <;> rfl

theorem getPassword_bitsPerByte (maxLen : Nat) (w : World) :
    (getPassword maxLen w).2.bitsPerByte = w.bitsPerByte := by
  unfold getPassword
  rcases h1 : getpwd maxLen (w.emit (.print "Enter password: ")) with ⟨r1, w1⟩
  have b1 := getpwd_bitsPerByte maxLen (w.emit (.print "Enter password: "))
  rw [h1] at b1
  cases r1 with
  | error e => simpa using b1
  | ok p1 =>
    dsimp only
    rcases h2 : getpwd maxLen (w1.emit (.print "Confirm password: ")) with ⟨r2, w2⟩
    have b2 := getpwd_bitsPerByte maxLen (w1.emit (.print "Confirm password: "))
    rw [h2] at b2
    cases r2 with
    | error e => simp at b1 b2 ⊢; omega
    | ok p2 =>
      dsimp only
      split <;> simp at b1 b2 ⊢ <;> omega

theorem getPassword_sig (maxLen : Nat) (w : World) :
    sig (getPassword maxLen w).2.trace =
      sig w.trace ++ .print "Enter password: " ::
        (match (getPassword maxLen w).1 with
          | .ok none => [.print "\nThe passwords do not match!"]
          | _ => []) := by
  unfold getPassword
  rcases h1 : getpwd maxLen (w.emit (.print "Enter password: ")) with ⟨r1, w1⟩
  have b1 := getpwd_sig maxLen (w.emit (.print "Enter password: "))
  rw [h1] at b1
  simp only [emit_trace, sig_append] at b1
  cases r1 with
  | error e => simpa [sig_cons] using b1
  | ok p1 =>
    dsimp only
    rcases h2 : getpwd maxLen (w1.emit (.print "Confirm password: ")) with ⟨r2, w2⟩
    have b2 := getpwd_sig maxLen (w1.emit (.print "Confirm password: "))
    rw [h2] at b2
    simp only [emit_trace, sig_append] at b2
    cases r2 with
    | error e =>
      simp only [b2, b1]
      simp [sig_cons]
    | ok p2 =>
      dsimp only
      split
      · simp only [emit_trace, sig_append, b2, b1]
        simp [sig_cons]
      · simp only [b2, b1]
        simp [sig_cons]

theorem getBitsPerByte_sig (cfg : Config) (w : World) :
    sig (getBitsPerByte cfg w).2.trace = sig w.trace := by
  unfold getBitsPerByte
  dsimp only
  split <;> simp [setBitsPerByte, sig_cons]

theorem getBitsPerByte_ok (cfg : Config) (w : World)
    (h : (getBitsPerByte cfg w).1 = .ok ()) :
    (getBitsPerByte cfg w).2.bitsPerByte = 1 ∨ (getBitsPerByte cfg w).2.bitsPerByte = 2 ∨
      (getBitsPerByte cfg w).2.bitsPerByte = 4 := by
  unfold getBitsPerByte at h ⊢
  dsimp only at h ⊢
  split
  · next hv => simpa [setBitsPerByte] using hv
  · next hv => simp [hv] at h

theorem getBitsPerByte_error (cfg : Config) (w : World) (e : ErrCode)
    (h : (getBitsPerByte cfg w).1 = .error e) :
    (getBitsPerByte cfg w).2.bitsPerByte = w.bitsPerByte ∧ e = .ERR_VALIDATION := by
  unfold getBitsPerByte at h ⊢
  dsimp only at h ⊢
  split
  · next hv => simp [hv] at h
  · next hv =>
    simp only [hv, if_false] at h
    simp only [Except.error.injEq] at h
    simp [h]

theorem keyedCall_spec (cfg : Config) (op : Nat → Option CString → KeyMaterial → Event)
    (hop : ∀ b n k, (op b n k).isSig = true) (name key : CString) (w : World) :
    (keyedCall cfg op name key w).2.bitsPerByte = w.bitsPerByte ∧
    ∃ obs, sig (keyedCall cfg op name key w).2.trace = sig w.trace ++ obs ∧
      KeyedOutcome op w.bitsPerByte name key (keyedCall cfg op name key w).1 obs := by
  unfold keyedCall
  by_cases hk : key = []
  · subst hk
    simp only [List.length_nil, if_true]
    have hb := getPassword_bitsPerByte (cfg.PASSWORD_BUFFER_LENGTH - 1) w
    have hs := getPassword_sig (cfg.PASSWORD_BUFFER_LENGTH - 1) w
    rcases hg : getPassword (cfg.PASSWORD_BUFFER_LENGTH - 1) w with ⟨r, w2⟩
    rw [hg] at hb hs
    simp only at hb hs
    rcases r with e | _ | pwd
    · refine ⟨by simpa using hb, _, ?_, Or.inl ⟨rfl, rfl, e, rfl⟩⟩
      simp [hs, sig_cons]
    · refine ⟨by simpa using hb, _, ?_, Or.inr (Or.inl ⟨rfl, rfl, rfl⟩)⟩
      simp [hs]
    · dsimp only
      have hc := call_trace w2 (op w2.bitsPerByte (some name) (.password (some pwd)))
      have hcb := call_bitsPerByte w2 (op w2.bitsPerByte (some name) (.password (some pwd)))
      rcases hcall : w2.call (op w2.bitsPerByte (some name) (.password (some pwd)))
        with ⟨ok, w3⟩
      rw [hcall] at hc hcb
      simp only at hc hcb
      cases ok
      · refine ⟨by simp [hcb, hb], _, ?_, Or.inr (Or.inr (Or.inr (Or.inl ⟨rfl, rfl, pwd, rfl⟩)))⟩
        simp [hc, hs, hb, sig_cons, hop]
      · refine ⟨by simp [hcb, hb], _, ?_, Or.inr (Or.inr (Or.inl ⟨rfl, rfl, pwd, rfl⟩))⟩
        simp [hc, hs, hb, sig_cons, hop]
  · have hlen : ¬ key.length = 0 := by simpa using hk
    simp only [hlen, if_false]
    unfold getKeyStream
    have hc0 := call_trace w (.getKeyStream (some key))
    have hb0 := call_bitsPerByte w (.getKeyStream (some key))
    rcases hcall0 : w.call (.getKeyStream (some key)) with ⟨ok0, w2⟩
    rw [hcall0] at hc0 hb0
    simp only at hc0 hb0
    cases ok0
    · refine ⟨by simpa using hb0, _, ?_, Or.inr (Or.inr (Or.inr (Or.inr (Or.inl ⟨hk, rfl, rfl⟩))))⟩
      simp [hc0, sig_cons]
    · dsimp only
      have hc := call_trace w2 (op w2.bitsPerByte (some name) (.keystream (some key)))
      have hcb := call_bitsPerByte w2 (op w2.bitsPerByte (some name) (.keystream (some key)))
      rcases hcall : w2.call (op w2.bitsPerByte (some name) (.keystream (some key)))
        with ⟨ok, w3⟩
      rw [hcall] at hc hcb
      simp only at hc hcb
      cases ok
      · refine ⟨by simp [hcb, hb0], _, ?_,
          Or.inr (Or.inr (Or.inr (Or.inr (Or.inr (Or.inr ⟨hk, rfl, rfl⟩)))))⟩
        simp [hc, hc0, hb0, sig_cons, hop]
      · refine ⟨by simp [hcb, hb0], _, ?_,
          Or.inr (Or.inr (Or.inr (Or.inr (Or.inr (Or.inl ⟨hk, rfl, rfl⟩)))))⟩
        simp [hc, hc0, hb0, sig_cons, hop]

theorem keyedCommand_spec (cfg : Config) (prompt : String)
    (op : Nat → Option CString → KeyMaterial → Event)
    (hop : ∀ b n k, (op b n k).isSig = true) (hprompt : (Event.print prompt).isSig = false)
    (w : World) :
    ∃ obs, sig (keyedCommand cfg prompt op w).2.trace = sig w.trace ++ obs ∧
      (((keyedCommand cfg prompt op w).1 = false ∧
          (keyedCommand cfg prompt op w).2.bitsPerByte = w.bitsPerByte ∧
          ∃ e, obs = [.printException e]) ∨
        (CheckedDensity w.bitsPerByte (keyedCommand cfg prompt op w).2.bitsPerByte ∧
          ∃ name key, KeyedOutcome op (keyedCommand cfg prompt op w).2.bitsPerByte name key
            (keyedCommand cfg prompt op w).1 obs)) := by
  unfold keyedCommand
  have hs0 := getBitsPerByte_sig cfg w
  have hok := getBitsPerByte_ok cfg w
  have herr := getBitsPerByte_error cfg w
  rcases hchk : (if w.bitsPerByte = 0 then getBitsPerByte cfg w else (.ok (), w))
    with ⟨r, w1⟩
  have hw1 : sig w1.trace = sig w.trace ∧
      ((∃ e, r = .error e ∧ w1.bitsPerByte = w.bitsPerByte) ∨
        (r = .ok () ∧ CheckedDensity w.bitsPerByte w1.bitsPerByte)) := by
    by_cases hz : w.bitsPerByte = 0
    · rw [if_pos hz] at hchk
      rw [hchk] at hs0 hok herr
      refine ⟨hs0, ?_⟩
      cases r with
      | error e => exact Or.inl ⟨e, rfl, (herr e rfl).1⟩
      | ok u =>
        refine Or.inr ⟨rfl, ?_⟩
        rcases hok rfl with h | h | h
        · exact Or.inl h
        · exact Or.inr (Or.inl h)
        · exact Or.inr (Or.inr (Or.inl h))
    · rw [if_neg hz] at hchk
      simp only [Prod.mk.injEq] at hchk
      obtain ⟨hr, hw⟩ := hchk
      subst hw
      exact ⟨rfl, Or.inr ⟨hr.symm, Or.inr (Or.inr (Or.inr ⟨rfl, hz⟩))⟩⟩
  obtain ⟨hsig, hcase⟩ := hw1
  rcases hcase with ⟨e, hr, hb⟩ | ⟨hr, hb⟩
  · subst hr
    refine ⟨[.printException e], ?_, Or.inl ⟨rfl, by simpa using hb, e, rfl⟩⟩
    simp [hsig, sig_cons]
  · subst hr
    dsimp only
    have hspec := keyedCall_spec cfg op hop
      (cinGetline cfg.FILENAME_BUFFER_LENGTH (w1.emit (.print prompt))).1
      (cinGetline cfg.FILENAME_BUFFER_LENGTH
        ((cinGetline cfg.FILENAME_BUFFER_LENGTH (w1.emit (.print prompt))).2.emit
          (.print "Enter keystream filename (Enter = none): "))).1
      (cinGetline cfg.FILENAME_BUFFER_LENGTH
        ((cinGetline cfg.FILENAME_BUFFER_LENGTH (w1.emit (.print prompt))).2.emit
          (.print "Enter keystream filename (Enter = none): "))).2
    obtain ⟨hbits, obs, hobs, hout⟩ := hspec
    simp only [cinGetline_bitsPerByte, emit_bitsPerByte] at hbits hout
    refine ⟨obs, ?_, Or.inr ⟨by rw [hbits]; exact hb, _, _, by rw [hbits]; exact hout⟩⟩
    rw [hobs]
    simp [hsig, sig_cons, hprompt]

theorem not_isQuit_of_match (cmd wd : CString)
    (hwd : wd ∈ ["help".toList, "?".toList, "load image".toList, "li".toList,
      "load file".toList, "lf".toList, "merge".toList, "m".toList, "extract file".toList,
      "ef".toList, "copy".toList, "c".toList, "set bits".toList, "sb".toList])
    (h : _strcmpi cmd wd = 0) : ¬ isQuit cmd := by
  rw [strcmpi_zero_iff_map] at h
  unfold isQuit
  simp only [strcmpi_zero_iff_map, h]
  simp only [List.mem_cons, List.mem_singleton, List.not_mem_nil, or_false] at hwd
  rcases hwd with rfl | rfl | rfl | rfl | rfl | rfl | rfl | rfl | rfl | rfl | rfl | rfl | rfl | rfl
    <;> decide

theorem simpleCall_outcome (cmd : CString) (hq : ¬ isQuit cmd) (w0 w : World) (e : Event)
    (he : e.isSig = false) (hs : sig w.trace = sig w0.trace)
    (hb : w.bitsPerByte = w0.bitsPerByte) :
    ∃ obs,
      sig (match w.call e with
        | (true, w1) => (true, w1)
        | (false, w1) => (false, w1.emit (.printException .engine))).2.trace
        = sig w0.trace ++ obs ∧
      CommandOutcome cmd w0.bitsPerByte
        (match w.call e with
        | (true, w1) => (true, w1)
        | (false, w1) => (false, w1.emit (.printException .engine))).2.bitsPerByte
        (match w.call e with
        | (true, w1) => (true, w1)
        | (false, w1) => (false, w1.emit (.printException .engine))).1 obs := by
  have hc := call_trace w e
  have hcb := call_bitsPerByte w e
  rcases hcall : w.call e with ⟨ok, w1⟩
  rw [hcall] at hc hcb
  simp only at hc hcb
  cases ok
  · refine ⟨[.printException .engine], ?_, Or.inr (Or.inr (Or.inl ⟨hq, rfl, ?_, _, rfl⟩))⟩
    · simp [hc, hs, sig_cons, he]
    · simp [hcb, hb]
  · refine ⟨[], ?_, Or.inr (Or.inl ⟨hq, rfl, rfl, Or.inl ?_⟩)⟩
    · simp [hc, hs, sig_cons, he]
    · simp [hcb, hb]

theorem processCommand_spec (cfg : Config) (cmd : CString) (w : World) :
    ∃ obs, sig (processCommand cfg cmd w).2.trace = sig w.trace ++ obs ∧
      CommandOutcome cmd w.bitsPerByte (processCommand cfg cmd w).2.bitsPerByte
        (processCommand cfg cmd w).1 obs := by
  unfold processCommand
  split
  · next h =>
    have hq : ¬ isQuit cmd := by
      rcases h with h | h
      · exact not_isQuit_of_match cmd _ (by simp) h
      · exact not_isQuit_of_match cmd _ (by simp) h
    exact ⟨[], by simp [sig_cons], Or.inr (Or.inl ⟨hq, rfl, rfl, Or.inl rfl⟩)⟩
  split
  · next h =>
    have hq : ¬ isQuit cmd := by
      rcases h with h | h
      · exact not_isQuit_of_match cmd _ (by simp) h
      · exact not_isQuit_of_match cmd _ (by simp) h
    exact simpleCall_outcome cmd hq w _ _ rfl (by simp [sig_cons]) (by simp)
  split
  · next h =>
    have hq : ¬ isQuit cmd := by
      rcases h with h | h
      · exact not_isQuit_of_match cmd _ (by simp) h
      · exact not_isQuit_of_match cmd _ (by simp) h
    exact simpleCall_outcome cmd hq w _ _ rfl (by simp [sig_cons]) (by simp)
  split
  · next h =>
    have hq : ¬ isQuit cmd := by
      rcases h with h | h
      · exact not_isQuit_of_match cmd _ (by simp) h
      · exact not_isQuit_of_match cmd _ (by simp) h
    obtain ⟨obs, hobs, hcase⟩ := keyedCommand_spec cfg "Enter output image filename: "
      Event.merge (fun _ _ _ => rfl) (by decide) w
    refine ⟨obs, hobs, ?_⟩
    rcases hcase with ⟨hr, hb, e, he⟩ | ⟨hd, name, key, hout⟩
    · exact Or.inr (Or.inr (Or.inl ⟨hq, hr, hb, e, he⟩))
    · exact Or.inr (Or.inr (Or.inr ⟨hq, hd, _, name, key, Or.inl rfl, hout⟩))
  split
  · next h =>
    have hq : ¬ isQuit cmd := by
      rcases h with h | h
      · exact not_isQuit_of_match cmd _ (by simp) h
      · exact not_isQuit_of_match cmd _ (by simp) h
    obtain ⟨obs, hobs, hcase⟩ := keyedCommand_spec cfg "Enter extracted filename: "
      Event.extract (fun _ _ _ => rfl) (by decide) w
    refine ⟨obs, hobs, ?_⟩
    rcases hcase with ⟨hr, hb, e, he⟩ | ⟨hd, name, key, hout⟩
    · exact Or.inr (Or.inr (Or.inl ⟨hq, hr, hb, e, he⟩))
    · exact Or.inr (Or.inr (Or.inr ⟨hq, hd, _, name, key, Or.inr rfl, hout⟩))
  split
  · next h =>
    have hq : ¬ isQuit cmd := by
      rcases h with h | h
      · exact not_isQuit_of_match cmd _ (by simp) h
      · exact not_isQuit_of_match cmd _ (by simp) h
    exact simpleCall_outcome cmd hq w _ _ rfl (by simp [sig_cons]) (by simp)
  split
  · next h =>
    have hq : ¬ isQuit cmd := by
      rcases h with h | h
      · exact not_isQuit_of_match cmd _ (by simp) h
      · exact not_isQuit_of_match cmd _ (by simp) h
    have hs0 := getBitsPerByte_sig cfg w
    have hok := getBitsPerByte_ok cfg w
    have herr := getBitsPerByte_error cfg w
    rcases hg : getBitsPerByte cfg w with ⟨r, w1⟩
    rw [hg] at hs0 hok herr
    cases r with
    | error e =>
      refine ⟨[.printException e], ?_, Or.inr (Or.inr (Or.inl ⟨hq, rfl, ?_, e, rfl⟩))⟩
      · simp only at hs0
        simp [hs0, sig_cons]
      · simpa using (herr e rfl).1
    | ok u =>
      refine ⟨[], ?_, Or.inr (Or.inl ⟨hq, rfl, rfl, Or.inr (hok rfl)⟩)⟩
      simpa using hs0
  split
  · next h =>
    exact ⟨[.deleteCloak], by simp [sig_cons], Or.inl ⟨h, rfl, rfl, rfl⟩⟩
  · next h =>
    exact ⟨[], by simp, Or.inr (Or.inl ⟨h, rfl, rfl, Or.inl rfl⟩)⟩

/-! ## Consequences for processCommand -/

theorem mem_sig (e : Event) (tr : List Event) : e ∈ sig tr ↔ e ∈ tr ∧ e.isSig = true := by
  simp [sig, List.mem_filter]

theorem isSig_of_isError (e : Event) (h : e.isError = true) : e.isSig = true := by
  cases e <;> simp_all [Event.isError, Event.isSig, Event.isKeyed]

theorem densityOK_of_not_isSig (e : Event) (h : e.isSig = false) : e.densityOK := by
  cases e <;> simp_all [Event.densityOK]

theorem densityOK_iff_sig (tr : List Event) :
    (∀ e ∈ tr, e.densityOK) ↔ ∀ e ∈ sig tr, e.densityOK := by
  constructor
  · intro h e he
    exact h e ((mem_sig e tr).1 he).1
  · intro h e he
    by_cases hs : e.isSig = true
    · exact h e ((mem_sig e tr).2 ⟨he, hs⟩)
    · exact densityOK_of_not_isSig e (by simpa using hs)

theorem exists_isError_iff_sig (tr : List Event) :
    (∃ e ∈ tr, e.isError = true) ↔ ∃ e ∈ sig tr, e.isError = true := by
  constructor
  · rintro ⟨e, he, h⟩
    exact ⟨e, (mem_sig e tr).2 ⟨he, isSig_of_isError e h⟩, h⟩
  · rintro ⟨e, he, h⟩
    exact ⟨e, ((mem_sig e tr).1 he).1, h⟩

theorem keyedOutcome_false_iff (op : Nat → Option CString → KeyMaterial → Event)
    (hop : op = Event.merge ∨ op = Event.extract) (b : Nat) (name key : CString)
    (ret : Bool) (obs : List Event) (h : KeyedOutcome op b name key ret obs) :
    (ret = false ↔ ∃ e ∈ obs, e.isError = true) ∧ Event.deleteCloak ∉ obs := by
  rcases hop with rfl | rfl <;>
  rcases h with ⟨_, hr, e, ho⟩ | ⟨_, hr, ho⟩ | ⟨_, hr, pwd, ho⟩ | ⟨_, hr, pwd, ho⟩ |
      ⟨_, hr, ho⟩ | ⟨_, hr, ho⟩ | ⟨_, hr, ho⟩ <;>
    subst hr <;> subst ho <;> simp [Event.isError]

theorem keyedOutcome_densityOK (op : Nat → Option CString → KeyMaterial → Event)
    (hop : op = Event.merge ∨ op = Event.extract) (b : Nat) (name key : CString)
    (ret : Bool) (obs : List Event) (h : KeyedOutcome op b name key ret obs)
    (hb : b = 1 ∨ b = 2 ∨ b = 4) : ∀ e ∈ obs, e.densityOK := by
  rcases hop with rfl | rfl <;>
  rcases h with ⟨_, hr, e, ho⟩ | ⟨_, hr, ho⟩ | ⟨_, hr, pwd, ho⟩ | ⟨_, hr, pwd, ho⟩ |
      ⟨_, hr, ho⟩ | ⟨_, hr, ho⟩ | ⟨_, hr, ho⟩ <;>
    subst hr <;> subst ho <;> simp [Event.densityOK, hb]

theorem checkedDensity_valid (b0 b : Nat) (h0 : b0 = 0 ∨ b0 = 1 ∨ b0 = 2 ∨ b0 = 4)
    (h : CheckedDensity b0 b) : b = 1 ∨ b = 2 ∨ b = 4 := by
  unfold CheckedDensity at h
  omega

/-- The density invariant of the interactive session: the engine holds 0, 1,
2 or 4, and every merge or extract call so far was made at 1, 2 or 4. -/
theorem processCommand_invariant (cfg : Config) (cmd : CString) (w : World)
    (hb : w.bitsPerByte = 0 ∨ w.bitsPerByte = 1 ∨ w.bitsPerByte = 2 ∨ w.bitsPerByte = 4)
    (ht : ∀ e ∈ w.trace, e.densityOK) :
    ((processCommand cfg cmd w).2.bitsPerByte = 0 ∨ (processCommand cfg cmd w).2.bitsPerByte = 1
      ∨ (processCommand cfg cmd w).2.bitsPerByte = 2
      ∨ (processCommand cfg cmd w).2.bitsPerByte = 4) ∧
    ∀ e ∈ (processCommand cfg cmd w).2.trace, e.densityOK := by
  obtain ⟨obs, hobs, hcase⟩ := processCommand_spec cfg cmd w
  rw [densityOK_iff_sig] at ht ⊢
  rw [hobs]
  simp only [List.mem_append]
  rcases hcase with ⟨_, _, ho, hbb⟩ | ⟨_, _, ho, hbb⟩ | ⟨_, _, hbb, e1, ho⟩ |
      ⟨_, hd, op, name, key, hop, hout⟩
  · subst ho
    refine ⟨by omega, ?_⟩
    rintro e (he | he)
    · exact ht e he
    · simp only [List.mem_singleton] at he
      subst he
      trivial
  · subst ho
    refine ⟨by omega, ?_⟩
    rintro e (he | he)
    · exact ht e he
    · simp at he
  · subst ho
    refine ⟨by omega, ?_⟩
    rintro e (he | he)
    · exact ht e he
    · simp only [List.mem_singleton] at he
      subst he
      trivial
  · have hv := checkedDensity_valid _ _ hb hd
    refine ⟨by omega, ?_⟩
    rintro e (he | he)
    · exact ht e he
    · exact keyedOutcome_densityOK op hop _ name key _ obs hout hv e he

theorem runCommands_invariant (cfg : Config) (cmds : List CString) :
    ∀ w : World,
      (w.bitsPerByte = 0 ∨ w.bitsPerByte = 1 ∨ w.bitsPerByte = 2 ∨ w.bitsPerByte = 4) →
      (∀ e ∈ w.trace, e.densityOK) → ∀ e ∈ (runCommands cfg cmds w).trace, e.densityOK := by
  induction cmds with
  | nil =>
    intro w _ ht
    simpa [runCommands] using ht
  | cons c cs ih =>
    intro w hb ht
    have hstep := processCommand_invariant cfg c w hb ht
    unfold runCommands
    split
    · exact ih _ hstep.1 hstep.2
    · exact hstep.2

theorem mainLoop_invariant (cfg : Config) (fuel : Nat) :
    ∀ w : World,
      (w.bitsPerByte = 0 ∨ w.bitsPerByte = 1 ∨ w.bitsPerByte = 2 ∨ w.bitsPerByte = 4) →
      (∀ e ∈ w.trace, e.densityOK) → ∀ e ∈ (mainLoop cfg fuel w).trace, e.densityOK := by
  induction fuel with
  | zero =>
    intro w _ ht
    simpa [mainLoop] using ht
  | succ n ih =>
    intro w hb ht
    have hb1 : (cinGetline 512 (w.emit (.print "cloak> "))).2.bitsPerByte = 0 ∨
        (cinGetline 512 (w.emit (.print "cloak> "))).2.bitsPerByte = 1 ∨
        (cinGetline 512 (w.emit (.print "cloak> "))).2.bitsPerByte = 2 ∨
        (cinGetline 512 (w.emit (.print "cloak> "))).2.bitsPerByte = 4 := by
      simpa using hb
    have ht1 : ∀ e ∈ (cinGetline 512 (w.emit (.print "cloak> "))).2.trace, e.densityOK := by
      intro e he
      simp only [cinGetline_trace, emit_trace, List.mem_append, List.mem_singleton] at he
      rcases he with he | he
      · exact ht e he
      · subst he
        trivial
    have hstep := processCommand_invariant cfg
      (cinGetline 512 (w.emit (.print "cloak> "))).1 _ hb1 ht1
    unfold mainLoop
    dsimp only
    split
    · exact ih _ hstep.1 hstep.2
    · exact hstep.2

/-! ## The effect of processParams -/

theorem call_sig_cases (w : World) (e : Event) :
    ((w.call e).1 = true ∨ (w.call e).1 = false) ∧
      sig (w.call e).2.trace = sig w.trace ++ sig [e] ∧
      (w.call e).2.bitsPerByte = w.bitsPerByte := by
  refine ⟨?_, by simp, by simp⟩
  cases (w.call e).1 <;> simp

theorem printInfo_sig (b : Bool) (w : World) :
    sig (if b = true then w.emit .printHeaderInfo else w).trace = sig w.trace ∧
      (if b = true then w.emit .printHeaderInfo else w).bitsPerByte = w.bitsPerByte := by
  cases b <;> simp [sig_cons]

theorem runEngine_spec (cfg : Config) (p : Params) (b : Nat) (pwd : Option CString)
    (w : World) :
    ∃ obs, sig (runEngine cfg p b pwd w).trace = sig w.trace ++ obs ∧
      EngineOutcome p b (keyOf p pwd) obs := by
  unfold runEngine EngineOutcome tryMode
  generalize hw1 : setBitsPerByte b
    { w.emit .newCloak with bitsPerByte := cfg.freshBitsPerByte } = w1
  have hs1 : sig w1.trace = sig w.trace := by
    rw [← hw1]
    simp [setBitsPerByte, sig_cons]
  have hb1 : w1.bitsPerByte = b := by
    rw [← hw1]
    rfl
  cases p.mode
  · exact ⟨[.deleteCloak], by simp [hs1, sig_cons], rfl⟩
  · dsimp only
    rcases hc1 : w1.call (.loadSourceImage p.szInputFileName) with ⟨ok1, w2⟩
    have h1 := call_sig_cases w1 (.loadSourceImage p.szInputFileName)
    rw [hc1] at h1
    obtain ⟨-, hs2, hb2⟩ := h1
    simp only [sig_cons, isSig_loadSourceImage, sig_nil, List.append_nil] at hs2
    cases ok1
    · exact ⟨_, by simp [hs2, hs1, sig_cons], Or.inl rfl⟩
    · dsimp only
      obtain ⟨hs3, hb3⟩ := printInfo_sig p.bPrintInfo w2
      generalize (if p.bPrintInfo = true then w2.emit .printHeaderInfo else w2) = w3 at hs3 hb3 ⊢
      rcases hc2 : w3.call (.loadSourceDataFile p.szSecretFileName) with ⟨ok2, w4⟩
      have h2 := call_sig_cases w3 (.loadSourceDataFile p.szSecretFileName)
      rw [hc2] at h2
      obtain ⟨-, hs4, hb4⟩ := h2
      simp only [sig_cons, isSig_loadSourceDataFile, sig_nil, List.append_nil] at hs4
      have hb : w4.bitsPerByte = b := by
        simp only at hb4 hb2
        rw [hb4, hb3, hb2, hb1]
      cases ok2
      · exact ⟨_, by simp [hs4, hs3, hs2, hs1, sig_cons], Or.inl rfl⟩
      · dsimp only
        rw [hb]
        rcases hc3 : w4.call (.merge b p.szOutputFileName (keyOf p pwd)) with ⟨ok3, w5⟩
        have h3 := call_sig_cases w4 (.merge b p.szOutputFileName (keyOf p pwd))
        rw [hc3] at h3
        obtain ⟨-, hs5, -⟩ := h3
        cases ok3
        · exact ⟨_, by simp [hs5, hs4, hs3, hs2, hs1, sig_cons], Or.inr (Or.inr rfl)⟩
        · exact ⟨_, by simp [hs5, hs4, hs3, hs2, hs1, sig_cons], Or.inr (Or.inl rfl)⟩
  · dsimp only
    rcases hc1 : w1.call (.loadSourceImage p.szInputFileName) with ⟨ok1, w2⟩
    have h1 := call_sig_cases w1 (.loadSourceImage p.szInputFileName)
    rw [hc1] at h1
    obtain ⟨-, hs2, hb2⟩ := h1
    simp only [sig_cons, isSig_loadSourceImage, sig_nil, List.append_nil] at hs2
    cases ok1
    · exact ⟨_, by simp [hs2, hs1, sig_cons], Or.inl rfl⟩
    · dsimp only
      obtain ⟨hs3, hb3⟩ := printInfo_sig p.bPrintInfo w2
      generalize (if p.bPrintInfo = true then w2.emit .printHeaderInfo else w2) = w3 at hs3 hb3 ⊢
      have hb : w3.bitsPerByte = b := by
        simp only at hb2
        rw [hb3, hb2, hb1]
      rw [hb]
      rcases hc3 : w3.call (.extract b p.szOutputFileName (keyOf p pwd)) with ⟨ok3, w5⟩
      have h3 := call_sig_cases w3 (.extract b p.szOutputFileName (keyOf p pwd))
      rw [hc3] at h3
      obtain ⟨-, hs5, -⟩ := h3
      cases ok3
      · exact ⟨_, by simp [hs5, hs3, hs2, hs1, sig_cons], Or.inr (Or.inr rfl)⟩
      · exact ⟨_, by simp [hs5, hs3, hs2, hs1, sig_cons], Or.inr (Or.inl rfl)⟩
  · dsimp only
    rcases hc1 : w1.call (.loadSourceImage p.szInputFileName) with ⟨ok1, w2⟩
    have h1 := call_sig_cases w1 (.loadSourceImage p.szInputFileName)
    rw [hc1] at h1
    obtain ⟨-, hs2, hb2⟩ := h1
    simp only [sig_cons, isSig_loadSourceImage, sig_nil, List.append_nil] at hs2
    cases ok1
    · exact ⟨_, by simp [hs2, hs1, sig_cons], Or.inl rfl⟩
    · dsimp only
      obtain ⟨hs3, hb3⟩ := printInfo_sig p.bPrintInfo w2
      generalize (if p.bPrintInfo = true then w2.emit .printHeaderInfo else w2) = w3 at hs3 hb3 ⊢
      rcases hc3 : w3.call (.copy p.szOutputFileName) with ⟨ok3, w5⟩
      have h3 := call_sig_cases w3 (.copy p.szOutputFileName)
      rw [hc3] at h3
      obtain ⟨-, hs5, -⟩ := h3
      cases ok3
      · exact ⟨_, by simp [hs5, hs3, hs2, hs1, sig_cons], Or.inl rfl⟩
      · exact ⟨_, by simp [hs5, hs3, hs2, hs1, sig_cons], Or.inr rfl⟩

theorem runParams_spec (cfg : Config) (p : Params) (w : World) :
    ∃ obs, sig (runParams cfg p w).2.trace = sig w.trace ++ obs ∧
      ParamsOutcome p (runParams cfg p w).1 obs := by
  unfold runParams ParamsOutcome
  by_cases hm : p.mode = .MODE_COPY
  · have hne : ¬ (p.mode ≠ .MODE_COPY) := fun h => h hm
    simp only [if_neg hne, if_pos hm]
    obtain ⟨obs, ho, he⟩ := runEngine_spec cfg p 1 none w
    exact ⟨obs, ho, trivial, he⟩
  · have hne : p.mode ≠ .MODE_COPY := hm
    simp only [if_pos hne, if_neg hm]
    by_cases hv : p.usBitsPerByte ≠ 1 ∧ p.usBitsPerByte ≠ 2 ∧ p.usBitsPerByte ≠ 4
    · simp only [if_pos hv]
      exact ⟨[], by simp [sig_cons], trivial, rfl⟩
    · simp only [if_neg hv]
      cases hkm : p.keyMode
      · dsimp only
        have hs := getPassword_sig 64 w
        rcases hg : getPassword 64 w with ⟨r, w2⟩
        rw [hg] at hs
        simp only at hs
        rcases r with e | _ | pwd
        · exact ⟨_, by simp [hs, sig_cons], rfl, Or.inl ⟨e, rfl⟩⟩
        · exact ⟨_, by simp [hs], rfl, Or.inr (Or.inl rfl)⟩
        · obtain ⟨obs, ho, he⟩ := runEngine_spec cfg p p.usBitsPerByte (some pwd) w2
          refine ⟨_, ?_, rfl, Or.inr (Or.inr ⟨pwd, obs, rfl, ?_⟩)⟩
          · simp [ho, hs]
          · simpa [keyOf, hkm] using he
      · dsimp only
        unfold getKeyStream
        rcases hc : w.call (.getKeyStream p.szKeyFileName) with ⟨ok, w2⟩
        have h1 := call_sig_cases w (.getKeyStream p.szKeyFileName)
        rw [hc] at h1
        obtain ⟨-, hs2, -⟩ := h1
        simp only [sig_cons, isSig_getKeyStream, sig_nil, List.append_nil] at hs2
        cases ok
        · exact ⟨[], by simp [hs2], Or.inl ⟨rfl, rfl⟩⟩
        · obtain ⟨obs, ho, he⟩ := runEngine_spec cfg p p.usBitsPerByte none w2
          refine ⟨obs, ?_, Or.inr ⟨rfl, ?_⟩⟩
          · simp [ho, hs2]
          · simpa [keyOf, hkm] using he

theorem engineOutcome_densityOK (p : Params) (b : Nat) (k : KeyMaterial) (obs : List Event)
    (h : EngineOutcome p b k obs)
    (hb : p.mode = .MODE_COPY ∨ p.mode = .MODE_INFO_ONLY ∨ b = 1 ∨ b = 2 ∨ b = 4) :
    ∀ e ∈ obs, e.densityOK := by
  unfold EngineOutcome at h
  cases hm : p.mode <;> rw [hm] at h <;> simp only at h
  · subst h
    simp [Event.densityOK]
  · have hb2 : b = 1 ∨ b = 2 ∨ b = 4 := by simpa [hm] using hb
    rcases h with h | h | h <;> subst h <;> simp [Event.densityOK, hb2]
  · have hb2 : b = 1 ∨ b = 2 ∨ b = 4 := by simpa [hm] using hb
    rcases h with h | h | h <;> subst h <;> simp [Event.densityOK, hb2]
  · rcases h with h | h <;> subst h <;> simp [Event.densityOK]

theorem paramsOutcome_densityOK (p : Params) (ex : Exit) (obs : List Event)
    (h : ParamsOutcome p ex obs) : ∀ e ∈ obs, e.densityOK := by
  unfold ParamsOutcome at h
  by_cases hm : p.mode = .MODE_COPY
  · rw [if_pos hm] at h
    exact engineOutcome_densityOK p 1 _ obs h.2 (Or.inl hm)
  · rw [if_neg hm] at h
    by_cases hv : p.usBitsPerByte ≠ 1 ∧ p.usBitsPerByte ≠ 2 ∧ p.usBitsPerByte ≠ 4
    · rw [if_pos hv] at h
      rw [h.2]
      simp
    · rw [if_neg hv] at h
      have hb : p.usBitsPerByte = 1 ∨ p.usBitsPerByte = 2 ∨ p.usBitsPerByte = 4 := by omega
      cases hkm : p.keyMode <;> rw [hkm] at h <;> simp only at h
      · rcases h with ⟨-, ⟨e, h⟩ | h | ⟨pwd, rest, h, he⟩⟩
        · subst h
          simp [Event.densityOK]
        · subst h
          simp [Event.densityOK]
        · subst h
          intro e hin
          simp only [List.mem_cons] at hin
          rcases hin with hin | hin
          · subst hin
            trivial
          · exact engineOutcome_densityOK p _ _ rest he (Or.inr (Or.inr hb)) e hin
      · rcases h with ⟨-, h⟩ | ⟨-, he⟩
        · subst h
          simp
        · exact engineOutcome_densityOK p _ _ obs he (Or.inr (Or.inr hb))

theorem processParams_spec (cfg : Config) (garbage : Nat) (argv : List CString) (w : World) :
    ∃ obs, sig (processParams cfg garbage argv w).2.trace = sig w.trace ++ obs ∧
      ((obs = [] ∧ ∀ p reads,
          scanArgs cfg (argv.drop 1) 1 (Params.entry garbage) [] ≠ .done p reads) ∨
        ∃ p reads, scanArgs cfg (argv.drop 1) 1 (Params.entry garbage) [] = .done p reads ∧
          ParamsOutcome p (processParams cfg garbage argv w).1 obs) := by
  unfold processParams
  cases hscan : scanArgs cfg (argv.drop 1) 1 (Params.entry garbage) [] with
  | usage reads => exact ⟨[], by simp [sig_cons], Or.inl ⟨rfl, by simp⟩⟩
  | nullArg reads => exact ⟨[], by simp, Or.inl ⟨rfl, by simp⟩⟩
  | done p reads =>
    obtain ⟨obs, ho, hp⟩ := runParams_spec cfg p w
    exact ⟨obs, ho, Or.inr ⟨p, reads, rfl, hp⟩⟩

theorem processParams_invariant (cfg : Config) (garbage : Nat) (argv : List CString)
    (w : World) (ht : ∀ e ∈ w.trace, e.densityOK) :
    ∀ e ∈ (processParams cfg garbage argv w).2.trace, e.densityOK := by
  obtain ⟨obs, ho, hcase⟩ := processParams_spec cfg garbage argv w
  rw [densityOK_iff_sig] at ht ⊢
  rw [ho]
  intro e he
  simp only [List.mem_append] at he
  rcases he with he | he
  · exact ht e he
  · rcases hcase with ⟨h, -⟩ | ⟨p, reads, -, hp⟩
    · subst h
      simp at he
    · exact paramsOutcome_densityOK p _ obs hp e he

/-- C1: the density invariant at the call sites.  On every run of
processParams, on every sequence of processCommand calls and on every run of
the command loop of `main`, started on an engine that reports a density of 0
and with nothing done yet, every merge and every extract call is made with the
engine's density at 1, 2 or 4. -/
theorem density_invariant (cfg : Config) (garbage fuel : Nat) (argv cmds : List CString)
    (w : World) (h0 : w.bitsPerByte = 0) (ht : w.trace = []) :
    (∀ e ∈ (processParams cfg garbage argv w).2.trace, e.densityOK) ∧
    (∀ e ∈ (runCommands cfg cmds w).trace, e.densityOK) ∧
    (∀ e ∈ (mainLoop cfg fuel w).trace, e.densityOK) := by
  have hnil : ∀ e ∈ w.trace, e.densityOK := by
    rw [ht]
    simp
  exact ⟨processParams_invariant cfg garbage argv w hnil,
    runCommands_invariant cfg cmds w (Or.inl h0) hnil,
    mainLoop_invariant cfg fuel w (Or.inl h0) hnil⟩

/-! ## The option loop and the key mode -/

theorem optionLetters_plain (a : CString) (rest : List CString)
    (hd : ¬ (a.head? = some '-' ∨ a.head? = some '/')) :
    optionLetters (a :: rest) = optionLetters rest := by
  rw [optionLetters, if_neg hd]

theorem optionLetters_bare (a : CString) (rest : List CString)
    (hd : a.head? = some '-' ∨ a.head? = some '/') (hc : a.tail.head? = none) :
    optionLetters (a :: rest) = optionLetters rest := by
  rw [optionLetters, if_pos hd, hc]

theorem optionLetters_flag (a : CString) (rest : List CString) (c : Char)
    (hd : a.head? = some '-' ∨ a.head? = some '/') (hc : a.tail.head? = some c)
    (hn : ¬ (c = 'i' ∨ c = 's' ∨ c = 'o' ∨ c = 'k')) :
    optionLetters (a :: rest) = c :: optionLetters rest := by
  rw [optionLetters, if_pos hd, hc]
  dsimp only
  rw [if_neg hn]

theorem optionLetters_file (a f : CString) (rest : List CString) (c : Char)
    (hd : a.head? = some '-' ∨ a.head? = some '/') (hc : a.tail.head? = some c)
    (hn : c = 'i' ∨ c = 's' ∨ c = 'o' ∨ c = 'k') :
    optionLetters (a :: f :: rest) = c :: optionLetters rest := by
  rw [optionLetters, if_pos hd, hc]
  dsimp only
  rw [if_pos hn]

theorem argStep_cases (cfg : Config) (a : CString) (p : Params) :
    argStep cfg a p = .usage ∨
    (∃ p2, argStep cfg a p = .next p2 ∧ p2.keyMode = p.keyMode ∧
      ∀ rest, ('k' ∈ optionLetters (a :: rest) ↔ 'k' ∈ optionLetters rest)) ∨
    (∃ b, argStep cfg a p = .take b ∧
      ∀ f rest, ('k' ∈ optionLetters (a :: f :: rest) ↔ b = .key ∨ 'k' ∈ optionLetters rest)) := by
  unfold argStep
  by_cases hd : a.head? = some '-' ∨ a.head? = some '/'
  · rw [if_pos hd]
    cases hc : a.tail.head? with
    | none =>
      right; left
      exact ⟨p, rfl, rfl, fun rest => by rw [optionLetters_bare a rest hd hc]⟩
    | some c =>
      dsimp only
      have hflag : ∀ p2 : Params, p2.keyMode = p.keyMode →
          ¬ (c = 'i' ∨ c = 's' ∨ c = 'o' ∨ c = 'k') →
          ∃ q, ArgStep.next p2 = ArgStep.next q ∧ q.keyMode = p.keyMode ∧
            ∀ rest, ('k' ∈ optionLetters (a :: rest) ↔ 'k' ∈ optionLetters rest) := by
        intro p2 hk hn
        refine ⟨p2, rfl, hk, fun rest => ?_⟩
        rw [optionLetters_flag a rest c hd hc hn, List.mem_cons]
        have : ¬ ('k' = c) := fun h => hn (Or.inr (Or.inr (Or.inr h.symm)))
        simp only [this, false_or]
      have hfile : ∀ b : FileOption, (c = 'i' ∨ c = 's' ∨ c = 'o' ∨ c = 'k') →
          (b = .key ↔ c = 'k') →
          ∃ b2, ArgStep.take b = ArgStep.take b2 ∧
            ∀ f rest, ('k' ∈ optionLetters (a :: f :: rest) ↔
              b2 = .key ∨ 'k' ∈ optionLetters rest) := by
        intro b hn hb
        refine ⟨b, rfl, fun f rest => ?_⟩
        rw [optionLetters_file a f rest c hd hc hn, List.mem_cons, hb]
        constructor
        · rintro (h | h)
          · exact Or.inl h.symm
          · exact Or.inr h
        · rintro (h | h)
          · exact Or.inl h.symm
          · exact Or.inr h
      by_cases h1 : c = '?' ∨ c = 'h'
      · rw [if_pos h1]; left; rfl
      rw [if_neg h1]
      by_cases h2 : c = 'a'
      · rw [if_pos h2]; right; left
        exact hflag _ rfl (by subst h2; decide)
      rw [if_neg h2]
      by_cases h3 : c = 'e'
      · rw [if_pos h3]; right; left
        exact hflag _ rfl (by subst h3; decide)
      rw [if_neg h3]
      by_cases h4 : c = 'c'
      · rw [if_pos h4]; right; left
        exact hflag _ rfl (by subst h4; decide)
      rw [if_neg h4]
      by_cases h5 : c = 'v'
      · rw [if_pos h5]; right; left
        exact hflag _ rfl (by subst h5; decide)
      rw [if_neg h5]
      by_cases h6 : c = 'i'
      · rw [if_pos h6]; right; right
        exact hfile _ (Or.inl h6) (by subst h6; decide)
      rw [if_neg h6]
      by_cases h7 : c = 's'
      · rw [if_pos h7]; right; right
        exact hfile _ (Or.inr (Or.inl h7)) (by subst h7; decide)
      rw [if_neg h7]
      by_cases h8 : c = 'o'
      · rw [if_pos h8]; right; right
        exact hfile _ (Or.inr (Or.inr (Or.inl h8))) (by subst h8; decide)
      rw [if_neg h8]
      by_cases h9 : c = 'k'
      · rw [if_pos h9]; right; right
        exact hfile _ (Or.inr (Or.inr (Or.inr h9))) (by subst h9; decide)
      rw [if_neg h9]
      have hn : ¬ (c = 'i' ∨ c = 's' ∨ c = 'o' ∨ c = 'k') := by
        rintro (h | h | h | h)
        · exact h6 h
        · exact h7 h
        · exact h8 h
        · exact h9 h
      by_cases h10 : c = 'b'
      · rw [if_pos h10]; right; left
        exact hflag _ rfl hn
      rw [if_neg h10]
      right; left
      exact hflag _ rfl hn
  · rw [if_neg hd]
    right; left
    exact ⟨p, rfl, rfl, fun rest => by rw [optionLetters_plain a rest hd]⟩

theorem setFile_keyMode (p : Params) (b : FileOption) (f : CString) :
    (p.setFile b f).keyMode = .KEY_STREAM ↔ b = .key ∨ p.keyMode = .KEY_STREAM := by
  cases b <;> simp [Params.setFile]

theorem scanArgs_keyMode (cfg : Config) (n : Nat) :
    ∀ (args : List CString), args.length ≤ n →
      ∀ (i : Nat) (p : Params) (reads : List Nat) (p2 : Params) (reads2 : List Nat),
      scanArgs cfg args i p reads = .done p2 reads2 →
      (p2.keyMode = .KEY_STREAM ↔ p.keyMode = .KEY_STREAM ∨ 'k' ∈ optionLetters args) := by
  induction n with
  | zero =>
    intro args hl i p reads p2 reads2 h
    have : args = [] := by simpa using hl
    subst this
    simp only [scanArgs, Scan.done.injEq] at h
    simp [optionLetters, h.1]
  | succ n ih =>
    intro args hl i p reads p2 reads2 h
    cases args with
    | nil =>
      simp only [scanArgs, Scan.done.injEq] at h
      simp [optionLetters, h.1]
    | cons a rest =>
      have hl2 : rest.length ≤ n := by simpa using hl
      rw [scanArgs] at h
      rcases argStep_cases cfg a p with hu | ⟨q, hq, hk, hmem⟩ | ⟨b, hb, hmem⟩
      · rw [hu] at h
        simp at h
      · rw [hq] at h
        dsimp only at h
        rw [ih rest hl2 _ _ _ _ _ h, hk, hmem]
      · rw [hb] at h
        dsimp only at h
        cases rest with
        | nil => simp at h
        | cons f rest2 =>
          dsimp only at h
          have hl3 : rest2.length ≤ n := by
            simp only [List.length_cons] at hl2
            omega
          rw [ih rest2 hl3 _ _ _ _ _ h, setFile_keyMode, hmem]
          tauto

/-! ## Which form of merge and extract is called -/

theorem keyedCalls_sig (tr : List Event) : keyedCalls (sig tr) = keyedCalls tr := by
  induction tr with
  | nil => rfl
  | cons e tr ih =>
    rw [sig_cons]
    by_cases hs : e.isSig = true
    · rw [if_pos hs]
      simp only [keyedCalls, List.filter_cons] at ih ⊢
      rw [ih]
    · rw [if_neg hs, ih]
      have hk : e.isKeyed = false := by
        cases e <;> simp_all [Event.isKeyed]
      simp [keyedCalls, List.filter_cons, hk]

theorem prompt_mem_sig (tr : List Event) :
    Event.print "Enter password: " ∈ sig tr ↔ Event.print "Enter password: " ∈ tr := by
  rw [mem_sig]
  simp

theorem engineOutcome_keyed (p : Params) (k : KeyMaterial) (obs : List Event)
    (hm : p.mode = .MODE_ADD ∨ p.mode = .MODE_EXTRACT)
    (h : EngineOutcome p p.usBitsPerByte k obs) :
    ((keyedCalls obs = [] ∧ ∃ e ∈ obs, e.isError = true) ∨ keyedCalls obs = [p.call k]) ∧
      Event.print "Enter password: " ∉ obs := by
  unfold EngineOutcome at h
  rcases hm with hm | hm <;> rw [hm] at h <;> simp only at h <;>
    rcases h with h | h | h <;> subst h <;>
    simp [keyedCalls, Event.isKeyed, Event.isError, Params.call, hm]

theorem paramsOutcome_keyed (p : Params) (ex : Exit) (obs : List Event)
    (hm : p.mode = .MODE_ADD ∨ p.mode = .MODE_EXTRACT)
    (hb : p.usBitsPerByte = 1 ∨ p.usBitsPerByte = 2 ∨ p.usBitsPerByte = 4)
    (h : ParamsOutcome p ex obs) :
    ((keyedCalls obs = [] ∧ (ex = .uncaught .engine ∨ ∃ e ∈ obs, e.isError = true)) ∨
      (∃ k, keyedCalls obs = [p.call k] ∧
        ((p.keyMode = .KEY_STREAM ∧ k = .keystream p.szKeyFileName) ∨
          (p.keyMode = .KEY_PASSWD ∧ ∃ pwd, k = .password (some pwd))))) ∧
    (Event.print "Enter password: " ∈ obs ↔ p.keyMode = .KEY_PASSWD) := by
  unfold ParamsOutcome at h
  have hnc : ¬ p.mode = .MODE_COPY := by
    rcases hm with hm | hm <;> rw [hm] <;> decide
  have hv : ¬ (p.usBitsPerByte ≠ 1 ∧ p.usBitsPerByte ≠ 2 ∧ p.usBitsPerByte ≠ 4) := by omega
  rw [if_neg hnc, if_neg hv] at h
  cases hkm : p.keyMode <;> rw [hkm] at h <;> simp only at h
  · rcases h with ⟨-, ⟨e, h⟩ | h | ⟨pwd, rest, h, he⟩⟩
    · subst h
      simp [keyedCalls, Event.isKeyed, Event.isError]
    · subst h
      simp [keyedCalls, Event.isKeyed, Event.isError]
    · subst h
      obtain ⟨hcase, -⟩ := engineOutcome_keyed p _ rest hm he
      have hcons : keyedCalls (Event.print "Enter password: " :: rest) = keyedCalls rest := by
        simp [keyedCalls, List.filter_cons, Event.isKeyed]
      refine ⟨?_, by simp⟩
      rcases hcase with ⟨hk, e, he1, he2⟩ | hk
      · exact Or.inl ⟨by rw [hcons, hk], Or.inr ⟨e, List.mem_cons_of_mem _ he1, he2⟩⟩
      · exact Or.inr ⟨_, by rw [hcons, hk], Or.inr ⟨rfl, pwd, rfl⟩⟩
  · rcases h with ⟨hex, h⟩ | ⟨-, he⟩
    · subst h
      simp [keyedCalls, hex]
    · obtain ⟨hcase, hnp⟩ := engineOutcome_keyed p _ obs hm he
      refine ⟨?_, by simp [hnp]⟩
      rcases hcase with ⟨hk, e, he1, he2⟩ | hk
      · exact Or.inl ⟨hk, Or.inr ⟨e, he1, he2⟩⟩
      · exact Or.inr ⟨_, hk, Or.inl ⟨rfl, rfl⟩⟩

theorem keyedOutcome_keyed (op : Nat → Option CString → KeyMaterial → Event)
    (hop : op = Event.merge ∨ op = Event.extract) (b : Nat) (name key : CString)
    (ret : Bool) (obs : List Event) (h : KeyedOutcome op b name key ret obs) :
    ((keyedCalls obs = [] ∧ ∃ e ∈ obs, e.isError = true) ∨
      (∃ k, keyedCalls obs = [op b (some name) k] ∧
        ((key ≠ [] ∧ k = .keystream (some key)) ∨
          (key = [] ∧ ∃ pwd, k = .password (some pwd))))) ∧
    (Event.print "Enter password: " ∈ obs ↔ key = []) := by
  rcases hop with rfl | rfl <;>
  rcases h with ⟨hk, _, e, ho⟩ | ⟨hk, _, ho⟩ | ⟨hk, _, pwd, ho⟩ | ⟨hk, _, pwd, ho⟩ |
      ⟨hk, _, ho⟩ | ⟨hk, _, ho⟩ | ⟨hk, _, ho⟩ <;>
    subst ho <;> simp [keyedCalls, Event.isKeyed, Event.isError, hk]

theorem sig_of_trace_nil (w w2 : World) (obs : List Event) (ht : w.trace = [])
    (h : sig w2.trace = sig w.trace ++ obs) : sig w2.trace = obs := by
  rw [h, ht]
  rfl

/-- C4, as amended: the form of the merge or extract call is chosen by the
caller.  A command line in add or extract mode with a density of 1, 2 or 4
makes at most one merge (resp. extract) call and no other: none only when an
error is reported or the exception of getKeyStream leaves processParams, and
otherwise exactly one, in the keystream form when a `k` option was given and
in the password form when none was; the password is asked for exactly when no
`k` option was given.  Likewise the merge and extract file commands of
processCommand, once the file names are read, make at most one call, none only
when an error is reported, in the keystream form when the keystream file name
is not empty and in the password form when it is, and ask for the password
exactly when it is empty. -/
theorem key_material_selection (cfg : Config) (garbage : Nat) (argv : List CString)
    (p : Params) (reads : List Nat) (stdin : List Char) (fail : Bool) (calls : List Bool)
    (bits : Nat) (op : Nat → Option CString → KeyMaterial → Event) (name key : CString)
    (hscan : scanArgs cfg (argv.drop 1) 1 (Params.entry garbage) [] = .done p reads)
    (hmode : p.mode = .MODE_ADD ∨ p.mode = .MODE_EXTRACT)
    (hbits : p.usBitsPerByte = 1 ∨ p.usBitsPerByte = 2 ∨ p.usBitsPerByte = 4)
    (hop : op = Event.merge ∨ op = Event.extract) :
    ((keyedCalls (processParams cfg garbage argv ⟨stdin, fail, calls, bits, []⟩).2.trace = [] ∧
        ((processParams cfg garbage argv ⟨stdin, fail, calls, bits, []⟩).1 = .uncaught .engine ∨
          ∃ e ∈ (processParams cfg garbage argv ⟨stdin, fail, calls, bits, []⟩).2.trace,
            e.isError = true)) ∨
      (∃ k, keyedCalls (processParams cfg garbage argv ⟨stdin, fail, calls, bits, []⟩).2.trace
            = [p.call k] ∧
          (('k' ∈ optionLetters (argv.drop 1) ∧ k = .keystream p.szKeyFileName) ∨
            ('k' ∉ optionLetters (argv.drop 1) ∧ ∃ pwd, k = .password (some pwd))))) ∧
    (Event.print "Enter password: " ∈
        (processParams cfg garbage argv ⟨stdin, fail, calls, bits, []⟩).2.trace ↔
      'k' ∉ optionLetters (argv.drop 1)) ∧
    ((keyedCalls (keyedCall cfg op name key ⟨stdin, fail, calls, bits, []⟩).2.trace = [] ∧
        ∃ e ∈ (keyedCall cfg op name key ⟨stdin, fail, calls, bits, []⟩).2.trace,
          e.isError = true) ∨
      (∃ k, keyedCalls (keyedCall cfg op name key ⟨stdin, fail, calls, bits, []⟩).2.trace
            = [op bits (some name) k] ∧
          ((key ≠ [] ∧ k = .keystream (some key)) ∨
            (key = [] ∧ ∃ pwd, k = .password (some pwd))))) ∧
    (Event.print "Enter password: " ∈
        (keyedCall cfg op name key ⟨stdin, fail, calls, bits, []⟩).2.trace ↔ key = []) := by
  have hkey : p.keyMode = .KEY_STREAM ↔ 'k' ∈ optionLetters (argv.drop 1) := by
    rw [scanArgs_keyMode cfg _ _ (le_refl _) _ _ _ _ _ hscan]
    simp [Params.entry]
  have hpw : p.keyMode = .KEY_PASSWD ↔ 'k' ∉ optionLetters (argv.drop 1) := by
    rw [← hkey]
    cases p.keyMode <;> simp
  have hsigop : ∀ b n k, (op b n k).isSig = true := by
    rcases hop with rfl | rfl <;> intro b n k <;> rfl
  obtain ⟨obs, hobs, hcase⟩ :=
    processParams_spec cfg garbage argv ⟨stdin, fail, calls, bits, []⟩
  have hs := sig_of_trace_nil _ _ obs rfl hobs
  obtain ⟨-, obs2, hobs2, hout2⟩ :=
    keyedCall_spec cfg op hsigop name key ⟨stdin, fail, calls, bits, []⟩
  have hs2 := sig_of_trace_nil _ _ obs2 rfl hobs2
  rw [← keyedCalls_sig (processParams cfg garbage argv ⟨stdin, fail, calls, bits, []⟩).2.trace,
    ← prompt_mem_sig (processParams cfg garbage argv ⟨stdin, fail, calls, bits, []⟩).2.trace,
    exists_isError_iff_sig (processParams cfg garbage argv ⟨stdin, fail, calls, bits, []⟩).2.trace,
    ← keyedCalls_sig (keyedCall cfg op name key ⟨stdin, fail, calls, bits, []⟩).2.trace,
    ← prompt_mem_sig (keyedCall cfg op name key ⟨stdin, fail, calls, bits, []⟩).2.trace,
    exists_isError_iff_sig (keyedCall cfg op name key ⟨stdin, fail, calls, bits, []⟩).2.trace,
    hs, hs2]
  obtain ⟨h3, h4⟩ := keyedOutcome_keyed op hop bits name key _ obs2 hout2
  refine ⟨?_, ?_, h3, h4⟩
  · rcases hcase with ⟨-, hno⟩ | ⟨q, reads2, hq, hout⟩
    · exact absurd hscan (hno p reads)
    · rw [hscan] at hq
      simp only [Scan.done.injEq] at hq
      obtain ⟨hq, -⟩ := hq
      subst hq
      obtain ⟨h1, -⟩ := paramsOutcome_keyed p _ obs hmode hbits hout
      rcases h1 with h1 | ⟨k, hk, hform⟩
      · exact Or.inl h1
      · refine Or.inr ⟨k, hk, ?_⟩
        rcases hform with ⟨hm, hkk⟩ | ⟨hm, hkk⟩
        · exact Or.inl ⟨hkey.1 hm, hkk⟩
        · exact Or.inr ⟨hpw.1 hm, hkk⟩
  · rcases hcase with ⟨-, hno⟩ | ⟨q, reads2, hq, hout⟩
    · exact absurd hscan (hno p reads)
    · rw [hscan] at hq
      simp only [Scan.done.injEq] at hq
      obtain ⟨hq, -⟩ := hq
      subst hq
      obtain ⟨-, h2⟩ := paramsOutcome_keyed p _ obs hmode hbits hout
      rw [h2, hpw]

/-- C5, as amended: processCommand returns `false` exactly when the command
is `quit`, `exit` or `q` (compared without regard to case) or the call
reported an error, that is a caught exception was printed or the two password
entries differ; in every other case it returns `true`.  The engine is deleted
exactly by `quit`, `exit` and `q`; after every other call the same engine is
kept, at the density it had unless the call set it to 1, 2 or 4. -/
theorem processCommand_return_value (cfg : Config) (cmd : CString) (stdin : List Char)
    (fail : Bool) (calls : List Bool) (bits : Nat) :
    ((processCommand cfg cmd ⟨stdin, fail, calls, bits, []⟩).1 = false ↔
      isQuit cmd ∨
        ∃ e ∈ (processCommand cfg cmd ⟨stdin, fail, calls, bits, []⟩).2.trace,
          e.isError = true) ∧
    (Event.deleteCloak ∈ (processCommand cfg cmd ⟨stdin, fail, calls, bits, []⟩).2.trace ↔
      isQuit cmd) ∧
    ((processCommand cfg cmd ⟨stdin, fail, calls, bits, []⟩).2.bitsPerByte = bits ∨
      (processCommand cfg cmd ⟨stdin, fail, calls, bits, []⟩).2.bitsPerByte = 1 ∨
      (processCommand cfg cmd ⟨stdin, fail, calls, bits, []⟩).2.bitsPerByte = 2 ∨
      (processCommand cfg cmd ⟨stdin, fail, calls, bits, []⟩).2.bitsPerByte = 4) := by
  obtain ⟨obs, hobs, hcase⟩ := processCommand_spec cfg cmd ⟨stdin, fail, calls, bits, []⟩
  have hs := sig_of_trace_nil _ _ obs rfl hobs
  have hdel : Event.deleteCloak ∈
      (processCommand cfg cmd ⟨stdin, fail, calls, bits, []⟩).2.trace ↔
        Event.deleteCloak ∈ obs := by
    rw [← hs, mem_sig]
    simp
  rw [exists_isError_iff_sig, hdel, hs]
  rcases hcase with ⟨hq, hr, ho, hb⟩ | ⟨hq, hr, ho, hb⟩ | ⟨hq, hr, hb, e, ho⟩ |
      ⟨hq, hd, op, name, key, hop, hout⟩
  · subst ho
    simp [hq, hr, hb]
  · subst ho
    simp only at hb
    simp [hq, hr]
    omega
  · subst ho
    simp [hq, hr, hb, Event.isError]
  · obtain ⟨h1, h2⟩ := keyedOutcome_false_iff op hop _ name key _ obs hout
    refine ⟨by rw [h1]; simp [hq], by simp [hq, h2], ?_⟩
    unfold CheckedDensity at hd
    simp only at hd
    omega

/-! ## The password length (C6) -/

theorem getpwdLoop_entry (maxLen : Nat) (rest entry : List Char) :
    ∀ (i : Nat) (acc : List Char), i ≤ maxLen →
      (∀ c ∈ entry, c ≠ '\n' ∧ c ≠ '\r' ∧ c ≠ '\x00') →
      (getpwdLoop maxLen (entry ++ '\n' :: rest) i acc).1 =
        if i + entry.length ≤ maxLen then some (acc ++ entry) else none := by
  induction entry with
  | nil =>
    intro i acc hi _
    simp [getpwdLoop, hi]
  | cons c e ih =>
    intro i acc hi hclean
    have hc := hclean c (List.mem_cons_self c e)
    have he : ∀ x ∈ e, x ≠ '\n' ∧ x ≠ '\r' ∧ x ≠ '\x00' :=
      fun x hx => hclean x (List.mem_cons_of_mem c hx)
    rw [List.cons_append, getpwdLoop, if_pos ⟨hc.1, hc.2.1⟩]
    by_cases hlt : i < maxLen
    · rw [if_pos hlt, if_neg hc.2.2]
      dsimp only
      rw [ih (i + 1) (acc ++ [c]) hlt he]
      have : i + (c :: e).length = i + 1 + e.length := by
        simp only [List.length_cons]
        omega
      rw [this]
      simp
    · rw [if_neg hlt]
      have : ¬ (i + (c :: e).length ≤ maxLen) := by
        simp only [List.length_cons]
        omega
      rw [if_neg this]

/-- C6 on the code: getpwd accepts an entry exactly when it has at most
`maxLen` characters and throws ERR_INVALID_PWD_LEN exactly when it has more,
for every entry without newline, carriage return and NUL that is ended by a
newline.  With `maxLen = 64` an entry of exactly 64 characters is accepted,
although the message says the password must be shorter than 64. -/
theorem getpwd_length_limit (maxLen : Nat) (entry rest : List Char) (w : World)
    (hclean : ∀ c ∈ entry, c ≠ '\n' ∧ c ≠ '\r' ∧ c ≠ '\x00')
    (hin : w.stdin = entry ++ '\n' :: rest) :
    ((getpwd maxLen w).1 = .ok entry ↔ entry.length ≤ maxLen) ∧
    ((getpwd maxLen w).1 = .error .ERR_INVALID_PWD_LEN ↔ maxLen < entry.length) := by
  have h := getpwdLoop_entry maxLen rest entry 0 [] (Nat.zero_le _) hclean
  unfold getpwd
  dsimp only
  rw [hin, h]
  by_cases hle : entry.length ≤ maxLen
  · have h0 : 0 + entry.length ≤ maxLen := by omega
    rw [if_pos h0]
    simp [hle]
  · have h0 : ¬ (0 + entry.length ≤ maxLen) := by omega
    rw [if_neg h0]
    simp only [hle, iff_false, true_iff]
    refine ⟨by simp, by omega⟩

/-! ## The claims at concrete inputs -/

/-- Witness of C1: in the session `sb`, `2`, `m`, `out.bmp`, `key.bin`, `q`
the merge call is made at density 2, and every call of the session is made at
density 1, 2 or 4. -/
theorem density_invariant_witness :
    (startWorld "sb\n2\nm\nout.bmp\nkey.bin\nq\n" []).bitsPerByte = 0 ∧
    (startWorld "sb\n2\nm\nout.bmp\nkey.bin\nq\n" []).trace = [] ∧
    Event.merge 2 (some "out.bmp".toList) (.keystream (some "key.bin".toList)) ∈
      (mainLoop refConfig 4 (startWorld "sb\n2\nm\nout.bmp\nkey.bin\nq\n" [])).trace ∧
    ∀ e ∈ (mainLoop refConfig 4 (startWorld "sb\n2\nm\nout.bmp\nkey.bin\nq\n" [])).trace,
      e.densityOK :=
  ⟨rfl, rfl, by decide,
    (density_invariant refConfig 0 4 exampleArgv []
      (startWorld "sb\n2\nm\nout.bmp\nkey.bin\nq\n" []) rfl rfl).2.2⟩

/-- C2 on the code: the command line `cloak -a -b257 -k key.bin -i in.bmp -s
note.txt -o out.bmp` passes the density check, because 257 is cut to the
byte 1 before it is checked: the engine is constructed, set to density 1, the
image and the secret file are loaded and merge is called. -/
theorem processParams_accepts_b257 :
    (processParams refConfig 0 argvB257 (startWorld "" [])).2.trace =
      [.getKeyStream (some "key.bin".toList), .newCloak, .setBitsPerByte 1,
       .loadSourceImage (some "in.bmp".toList), .loadSourceDataFile (some "note.txt".toList),
       .merge 1 (some "out.bmp".toList) (.keystream (some "key.bin".toList)), .deleteCloak] := by
  decide

/-- C3 on the code: the line `65537` parses to the integer 65537, which is not
1, 2 or 4, yet getBitsPerByte does not throw: the conversion to `word` cuts
the value to 1, and setBitsPerByte is called with 1, not with 65537. -/
theorem getBitsPerByte_accepts_65537 :
    atoi "65537".toList = 65537 ∧
    (getBitsPerByte refConfig (startWorld "65537\n" [])).1 = .ok () ∧
    (getBitsPerByte refConfig (startWorld "65537\n" [])).2.trace =
      [.print "Enter bits per byte (1, 2, or 4): ", .setBitsPerByte 1] ∧
    (getBitsPerByte refConfig (startWorld "65537\n" [])).2.bitsPerByte = 1 :=
  ⟨by decide, by rfl, by decide, by decide⟩

/-- Counterexample to C4 as stated: the command line `cloak -a -b2 -k key.bin
-i in.bmp -s note.txt -o out.bmp` is in add mode and passes the density check,
but when loading the image throws, processParams makes no merge call. -/
theorem add_mode_without_merge_call :
    scanArgs refConfig (exampleArgv.drop 1) 1 (Params.entry 0) [] =
      .done exampleParams [1, 2, 3, 4, 5, 6, 7, 8, 9, 10] ∧
    exampleParams.mode = .MODE_ADD ∧ exampleParams.usBitsPerByte = 2 ∧
    keyedCalls (processParams refConfig 0 exampleArgv (startWorld "" [true, false])).2.trace
      = [] := by
  decide

/-- Witness of C4: on the command line `cloak -a -b2 -k key.bin -i in.bmp -s
note.txt -o out.bmp` a `k` option is given, and no password is asked for. -/
theorem key_material_selection_witness :
    scanArgs refConfig (exampleArgv.drop 1) 1 (Params.entry 0) [] =
      .done exampleParams [1, 2, 3, 4, 5, 6, 7, 8, 9, 10] ∧
    'k' ∈ optionLetters (exampleArgv.drop 1) ∧
    (Event.print "Enter password: " ∈
        (processParams refConfig 0 exampleArgv ⟨[], false, [], 0, []⟩).2.trace ↔
      'k' ∉ optionLetters (exampleArgv.drop 1)) :=
  ⟨by decide, by decide,
    (key_material_selection refConfig 0 exampleArgv exampleParams
      [1, 2, 3, 4, 5, 6, 7, 8, 9, 10] [] false [] 0 Event.merge [] [] (by decide)
      (Or.inl rfl) (Or.inr (Or.inl rfl)) (Or.inl rfl)).2.1⟩

/-- Counterexample to C5 as stated: the command `li` is not `quit`, `exit` or
`q`, but when loading the image throws, processCommand returns `false`, which
ends the command loop. -/
theorem processCommand_failed_load_returns_false :
    ¬ isQuit "li".toList ∧
    (processCommand refConfig "li".toList (startWorld "x.bmp\n" [false])).1 = false := by
  refine ⟨?_, by decide⟩
  unfold isQuit
  decide

/-- Witness of C6: with `maxLen = 64` the entry of 64 letters `a` is accepted. -/
theorem getpwd_length_limit_witness :
    (List.replicate 64 'a').length = 64 ∧
    (getpwd 64 ⟨List.replicate 64 'a' ++ ['\n'], false, [], 0, []⟩).1 =
      .ok (List.replicate 64 'a') :=
  ⟨by decide,
    (getpwd_length_limit 64 (List.replicate 64 'a') []
      ⟨List.replicate 64 'a' ++ ['\n'], false, [], 0, []⟩
      (by decide) rfl).1.2 (by decide)⟩

/-- C9 on the code: for `argv = [cloak, -i]`, so `argc = 2`, the option loop
reads `argv[1]` and then, for the file name of `-i`, `argv[2] = argv[argc]`,
the null pointer, which processParams hands to `strcpy_s`. -/
theorem scanArgs_reads_argv_argc :
    ["cloak".toList, "-i".toList].length = 2 ∧
    scanArgs refConfig (["cloak".toList, "-i".toList].drop 1) 1 (Params.entry 0) [] =
      .nullArg [1, 2] ∧
    (processParams refConfig 0 ["cloak".toList, "-i".toList] (startWorld "" [])).1 =
      .nullArg := by
  decide

/-! ## The round trip of the engine -/

theorem getpwd_trace_le (maxLen : Nat) (w : World) :
    w.trace.length ≤ (getpwd maxLen w).2.trace.length := by
  unfold getpwd
  dsimp only
  split <;> simp

theorem getPassword_trace_le (maxLen : Nat) (w : World) :
    w.trace.length ≤ (getPassword maxLen w).2.trace.length := by
  unfold getPassword
  have b1 := getpwd_trace_le maxLen (w.emit (.print "Enter password: "))
  rcases h1 : getpwd maxLen (w.emit (.print "Enter password: ")) with ⟨r1, w1⟩
  rw [h1] at b1
  simp only [emit_trace, List.length_append, List.length_singleton] at b1
  cases r1 with
  | error e => exact Nat.le_of_succ_le b1
  | ok p1 =>
    dsimp only
    have b2 := getpwd_trace_le maxLen (w1.emit (.print "Confirm password: "))
    rcases h2 : getpwd maxLen (w1.emit (.print "Confirm password: ")) with ⟨r2, w2⟩
    rw [h2] at b2
    simp only [emit_trace, List.length_append, List.length_singleton] at b2
    cases r2 with
    | error e =>
      dsimp only
      omega
    | ok p2 =>
      dsimp only
      split
      · simp only [emit_trace, List.length_append, List.length_singleton]
        omega
      · dsimp only
        omega

theorem getBitsPerByte_trace_lt (cfg : Config) (w : World) :
    w.trace.length < (getBitsPerByte cfg w).2.trace.length := by
  unfold getBitsPerByte
  dsimp only
  split <;> simp [setBitsPerByte]

theorem caught_trace_lt (w : World) (e : Event) :
    w.trace.length <
      (match w.call e with
        | (true, w1) => (true, w1)
        | (false, w1) => (false, w1.emit (.printException .engine))).2.trace.length := by
  have hc := call_trace w e
  rcases hcall : w.call e with ⟨ok, w1⟩
  rw [hcall] at hc
  simp only at hc
  cases ok <;> simp [hc]

theorem keyedCall_trace_le (cfg : Config) (op : Nat → Option CString → KeyMaterial → Event)
    (name key : CString) (w : World) :
    w.trace.length ≤ (keyedCall cfg op name key w).2.trace.length := by
  unfold keyedCall
  split
  · have hp := getPassword_trace_le (cfg.PASSWORD_BUFFER_LENGTH - 1) w
    rcases hg : getPassword (cfg.PASSWORD_BUFFER_LENGTH - 1) w with ⟨r, w2⟩
    rw [hg] at hp
    simp only at hp
    rcases r with e | _ | pwd
    · simp only [emit_trace, List.length_append, List.length_singleton]
      omega
    · exact hp
    · dsimp only
      have := caught_trace_lt w2 (op w2.bitsPerByte (some name) (.password (some pwd)))
      omega
  · unfold getKeyStream
    have hc0 := call_trace w (.getKeyStream (some key))
    rcases hcall0 : w.call (.getKeyStream (some key)) with ⟨ok0, w2⟩
    rw [hcall0] at hc0
    simp only at hc0
    cases ok0
    · simp [hc0]
    · dsimp only
      have := caught_trace_lt w2 (op w2.bitsPerByte (some name) (.keystream (some key)))
      have h2 : w.trace.length ≤ w2.trace.length := by simp [hc0]
      omega

theorem keyedCommand_trace_lt (cfg : Config) (prompt : String)
    (op : Nat → Option CString → KeyMaterial → Event) (w : World) :
    w.trace.length < (keyedCommand cfg prompt op w).2.trace.length := by
  unfold keyedCommand
  have hg := getBitsPerByte_trace_lt cfg w
  rcases hchk : (if w.bitsPerByte = 0 then getBitsPerByte cfg w else (.ok (), w))
    with ⟨r, w1⟩
  have hw1 : w.trace.length ≤ w1.trace.length := by
    by_cases hz : w.bitsPerByte = 0
    · rw [if_pos hz] at hchk
      rw [hchk] at hg
      exact Nat.le_of_lt hg
    · rw [if_neg hz] at hchk
      simp only [Prod.mk.injEq] at hchk
      rw [← hchk.2]
  cases r with
  | error e =>
    simp only [emit_trace, List.length_append, List.length_singleton]
    omega
  | ok u =>
    dsimp only
    have hk := keyedCall_trace_le cfg op
      (cinGetline cfg.FILENAME_BUFFER_LENGTH (w1.emit (.print prompt))).1
      (cinGetline cfg.FILENAME_BUFFER_LENGTH
        ((cinGetline cfg.FILENAME_BUFFER_LENGTH (w1.emit (.print prompt))).2.emit
          (.print "Enter keystream filename (Enter = none): "))).1
      (cinGetline cfg.FILENAME_BUFFER_LENGTH
        ((cinGetline cfg.FILENAME_BUFFER_LENGTH (w1.emit (.print prompt))).2.emit
          (.print "Enter keystream filename (Enter = none): "))).2
    simp only [cinGetline_trace, emit_trace, List.length_append, List.length_singleton] at hk
    omega

theorem processCommand_matched_acts (cfg : Config) (s : CString) (w : World)
    (h : ∃ wd ∈ commandWords, _strcmpi s wd = 0) :
    w.trace.length < (processCommand cfg s w).2.trace.length := by
  unfold processCommand
  split
  · simp
  split
  · have := caught_trace_lt
      (cinGetline cfg.FILENAME_BUFFER_LENGTH (w.emit (.print "Enter input image filename: "))).2
      (.loadSourceImage (some (cinGetline cfg.FILENAME_BUFFER_LENGTH
        (w.emit (.print "Enter input image filename: "))).1))
    simp only [cinGetline_trace, emit_trace, List.length_append, List.length_singleton] at this
    dsimp only
    omega
  split
  · have := caught_trace_lt
      (cinGetline cfg.FILENAME_BUFFER_LENGTH (w.emit (.print "Enter input filename: "))).2
      (.loadSourceDataFile (some (cinGetline cfg.FILENAME_BUFFER_LENGTH
        (w.emit (.print "Enter input filename: "))).1))
    simp only [cinGetline_trace, emit_trace, List.length_append, List.length_singleton] at this
    dsimp only
    omega
  split
  · exact keyedCommand_trace_lt cfg _ _ w
  split
  · exact keyedCommand_trace_lt cfg _ _ w
  split
  · have := caught_trace_lt
      (cinGetline cfg.FILENAME_BUFFER_LENGTH (w.emit (.print "Enter output image filename: "))).2
      (.copy (some (cinGetline cfg.FILENAME_BUFFER_LENGTH
        (w.emit (.print "Enter output image filename: "))).1))
    simp only [cinGetline_trace, emit_trace, List.length_append, List.length_singleton] at this
    dsimp only
    omega
  split
  · have hg := getBitsPerByte_trace_lt cfg w
    rcases hgb : getBitsPerByte cfg w with ⟨r, w1⟩
    rw [hgb] at hg
    cases r with
    | error e =>
      simp only [emit_trace, List.length_append, List.length_singleton]
      simp only at hg
      omega
    | ok u => exact hg
  split
  · simp
  · exfalso
    obtain ⟨wd, hwd, hm⟩ := h
    simp only [commandWords, List.mem_cons, List.mem_singleton, List.not_mem_nil,
      or_false] at hwd
    rcases hwd with rfl | rfl | rfl | rfl | rfl | rfl | rfl | rfl | rfl | rfl | rfl | rfl |
      rfl | rfl | rfl | rfl | rfl <;> simp_all

theorem processCommand_ignored_iff (cfg : Config) (s : CString) (w : World) :
    processCommand cfg s w = (true, w) ↔ ∀ wd ∈ commandWords, _strcmpi s wd ≠ 0 := by
  constructor
  · intro h wd hwd hm
    have hlt := processCommand_matched_acts cfg s w ⟨wd, hwd, hm⟩
    rw [h] at hlt
    exact Nat.lt_irrefl _ hlt
  · exact processCommand_unmatched cfg s w

/-- C8, as amended: `_strcmpi` is a case-insensitive equality test.  It
returns 0 exactly when the two strings have the same length and equal
upper-cased characters at every position, and -1 otherwise; it is reflexive
and symmetric.  Consequently processCommand recognises a line exactly when it
compares equal to one of the command words, whatever its letter case: every
other line is ignored (nothing is done and `true` is returned), and a line that
compares equal to a command word runs the command of that word.  A proper
prefix or extension of a command word never compares equal to that word, so it
is recognised only when it compares equal to another command word, as `m`,
`c` and `q` do. -/
theorem strcmpi_command_recognition (cfg : Config) (s t : CString) (w : World) :
    (_strcmpi s t = 0 ↔
      s.length = t.length ∧
        ∀ i : Nat, i < s.length → toupper (s.getD i ' ') = toupper (t.getD i ' ')) ∧
    (_strcmpi s t ≠ 0 → _strcmpi s t = -1) ∧
    _strcmpi s s = 0 ∧
    _strcmpi t s = _strcmpi s t ∧
    (processCommand cfg s w = (true, w) ↔ ∀ wd ∈ commandWords, _strcmpi s wd ≠ 0) ∧
    (∀ wd ∈ commandWords, _strcmpi s wd = 0 →
      processCommand cfg s w = processCommand cfg wd w) ∧
    ((_strcmpi s "help".toList = 0 ∨ _strcmpi s "?".toList = 0) →
      processCommand cfg s w = (true, w.emit .printHelp)) ∧
    ((_strcmpi s "load image".toList = 0 ∨ _strcmpi s "li".toList = 0) →
      processCommand cfg s w =
        match (cinGetline cfg.FILENAME_BUFFER_LENGTH
            (w.emit (.print "Enter input image filename: "))).2.call
          (.loadSourceImage (some (cinGetline cfg.FILENAME_BUFFER_LENGTH
            (w.emit (.print "Enter input image filename: "))).1)) with
        | (true, w1) => (true, w1)
        | (false, w1) => (false, w1.emit (.printException .engine))) ∧
    ((_strcmpi s "load file".toList = 0 ∨ _strcmpi s "lf".toList = 0) →
      processCommand cfg s w =
        match (cinGetline cfg.FILENAME_BUFFER_LENGTH
            (w.emit (.print "Enter input filename: "))).2.call
          (.loadSourceDataFile (some (cinGetline cfg.FILENAME_BUFFER_LENGTH
            (w.emit (.print "Enter input filename: "))).1)) with
        | (true, w1) => (true, w1)
        | (false, w1) => (false, w1.emit (.printException .engine))) ∧
    ((_strcmpi s "merge".toList = 0 ∨ _strcmpi s "m".toList = 0) →
      processCommand cfg s w = keyedCommand cfg "Enter output image filename: " Event.merge w) ∧
    ((_strcmpi s "extract file".toList = 0 ∨ _strcmpi s "ef".toList = 0) →
      processCommand cfg s w = keyedCommand cfg "Enter extracted filename: " Event.extract w) ∧
    ((_strcmpi s "copy".toList = 0 ∨ _strcmpi s "c".toList = 0) →
      processCommand cfg s w =
        match (cinGetline cfg.FILENAME_BUFFER_LENGTH
            (w.emit (.print "Enter output image filename: "))).2.call
          (.copy (some (cinGetline cfg.FILENAME_BUFFER_LENGTH
            (w.emit (.print "Enter output image filename: "))).1)) with
        | (true, w1) => (true, w1)
        | (false, w1) => (false, w1.emit (.printException .engine))) ∧
    ((_strcmpi s "set bits".toList = 0 ∨ _strcmpi s "sb".toList = 0) →
      processCommand cfg s w =
        match getBitsPerByte cfg w with
        | (.ok _, w1) => (true, w1)
        | (.error e, w1) => (false, w1.emit (.printException e))) ∧
    ((_strcmpi s "quit".toList = 0 ∨ _strcmpi s "exit".toList = 0
        ∨ _strcmpi s "q".toList = 0) →
      processCommand cfg s w = (false, (w.emit (.print "bye...")).emit .deleteCloak)) ∧
    (∀ wd ∈ commandWords, (s <+: wd ∨ wd <+: s) → s ≠ wd →
      _strcmpi s wd = -1 ∧
        (processCommand cfg s w ≠ (true, w) →
          ∃ wd2 ∈ commandWords, wd2 ≠ wd ∧ _strcmpi s wd2 = 0)) := by
  have hcases : _strcmpi s t ≠ 0 → _strcmpi s t = -1 := by
    rw [strcmpi_eq_ite]
    by_cases h : s.map toupper = t.map toupper <;> simp [h]
  refine ⟨?_, hcases, ?_, ?_, processCommand_ignored_iff cfg s w, ?_, ?_, ?_, ?_, ?_, ?_, ?_,
    ?_, ?_, ?_⟩
  · rw [strcmpi_zero_iff_map, map_toupper_eq_iff]
  · rw [strcmpi_zero_iff_map]
  · rw [strcmpi_eq_ite, strcmpi_eq_ite]
    by_cases h : s.map toupper = t.map toupper
    · simp [h]
    · have h2 : ¬ t.map toupper = s.map toupper := fun e => h e.symm
      simp [h, h2]
  · intro wd _ h
    exact processCommand_congr cfg (strcmpi_congr_left h) w
  · rintro (h | h) <;>
    · rw [processCommand_congr cfg (strcmpi_congr_left h) w]
      unfold processCommand
      simp +decide only [if_true, if_false]
  · rintro (h | h) <;>
    · rw [processCommand_congr cfg (strcmpi_congr_left h) w]
      unfold processCommand
      simp +decide only [if_true, if_false]
  · rintro (h | h) <;>
    · rw [processCommand_congr cfg (strcmpi_congr_left h) w]
      unfold processCommand
      simp +decide only [if_true, if_false]
  · rintro (h | h) <;>
    · rw [processCommand_congr cfg (strcmpi_congr_left h) w]
      unfold processCommand
      simp +decide only [if_true, if_false]
  · rintro (h | h) <;>
    · rw [processCommand_congr cfg (strcmpi_congr_left h) w]
      unfold processCommand
      simp +decide only [if_true, if_false]
  · rintro (h | h) <;>
    · rw [processCommand_congr cfg (strcmpi_congr_left h) w]
      unfold processCommand
      simp +decide only [if_true, if_false]
  · rintro (h | h) <;>
    · rw [processCommand_congr cfg (strcmpi_congr_left h) w]
      unfold processCommand
      simp +decide only [if_true, if_false]
  · rintro (h | h | h) <;>
    · rw [processCommand_congr cfg (strcmpi_congr_left h) w]
      unfold processCommand
      simp +decide only [if_true, if_false]
  · intro wd _ hp hne
    have hl : s.length ≠ wd.length := by
      intro hl
      rcases hp with hp | hp
      · exact hne (List.IsPrefix.eq_of_length hp hl)
      · exact hne (List.IsPrefix.eq_of_length hp hl.symm).symm
    have hm : _strcmpi s wd = -1 := by simp [_strcmpi, hl]
    refine ⟨hm, fun hact => ?_⟩
    by_contra hnone
    apply hact
    rw [processCommand_ignored_iff]
    intro wd2 hwd2 h0
    apply hnone
    refine ⟨wd2, hwd2, ?_, h0⟩
    intro heq
    rw [heq, hm] at h0
    exact absurd h0 (by decide)

/-- Counterexample to C8 as stated: `m` is a proper prefix of the command word
`merge`, and processCommand recognises it: it runs the merge command, here up
to the merge call at density 2. -/
theorem proper_prefix_is_recognised :
    "merge".toList ∈ commandWords ∧
    "m".toList <+: "merge".toList ∧ "m".toList ≠ "merge".toList ∧
    processCommand refConfig "m".toList (startWorld "2\nout.bmp\nkey.bin\n" []) =
      processCommand refConfig "merge".toList (startWorld "2\nout.bmp\nkey.bin\n" []) ∧
    Event.merge 2 (some "out.bmp".toList) (.keystream (some "key.bin".toList)) ∈
      (processCommand refConfig "m".toList (startWorld "2\nout.bmp\nkey.bin\n" [])).2.trace := by
  decide

end Cloak
